import Mathlib

/-!
# Seismic Discord analytics bot: store model and counter aggregation

A shallow embedding of `src/bot.js`.

* The remote Firebase store is a JSON tree (`JVal`).  A request path such as
  `discord/users/${userId}/totalMessages` is the list of its segments
  `["discord", "users", userId, "totalMessages"]`; identifiers (Discord
  snowflakes, ISO dates) are single segments.
* JSON numbers are integers (`Int`): every number the bot writes is a counter
  or a millisecond timestamp.
* A remote call (`get`, `set`, `update`) either throws or takes effect.  The
  pattern of failures is the list `World.faults`: each remote call consumes
  the head flag and throws when the flag is `true`; the empty list means that
  no further call fails.
* `Date.now()` and `getTodayString()` are clock readings supplied by the
  environment; they are passed to the operation that reads them.
* The field list of an object is kept in the order in which JavaScript
  enumerates it (`Object.entries`); for keys that are not array indices, such
  as snowflake ids, that is the order of the JSON text.
* `Array.prototype.sort` is stable (ECMAScript 2019); it is modelled as a
  stable insertion sort, which gives the same result for every comparator
  that is a consistent ordering.
* `toLowerCase` acts on the ASCII letters.
* Console output is not modelled.
-/

namespace Seismic

/-! ## JSON values and the path-addressed store -/

/-- JSON value held by the store or handled by the bot; `null` also stands for
JavaScript's `undefined` and for an absent store node. -/
inductive JVal where
  | null : JVal
  | bool (b : Bool) : JVal
  | num (n : Int) : JVal
  | str (s : String) : JVal
  | obj (fields : List (String × JVal)) : JVal
  deriving Inhabited, Repr

namespace JVal

/-- Own property `k` of a field list, `null` when there is none. -/
def lookup (k : String) : List (String × JVal) → JVal
  | [] => null
  | (k', v) :: rest => if k' = k then v else lookup k rest

/-- Field list with `k` bound to `v`: an existing binding is replaced in
place, a new key is appended. -/
def replaceField (k : String) (v : JVal) : List (String × JVal) → List (String × JVal)
  | [] => [(k, v)]
  | (k', v') :: rest =>
    if k' = k then (k, v) :: rest else (k', v') :: replaceField k v rest

/-- Field list after writing `v` under `k`; writing `null` removes the key
(the store keeps no null children). -/
def putField (k : String) (v : JVal) (fs : List (String × JVal)) : List (String × JVal) :=
  match v with
  | null => fs.filter (fun kv => kv.1 != k)
  | _ => replaceField k v fs

/-- Children of a node; a leaf has none. -/
def fields : JVal → List (String × JVal)
  | obj fs => fs
  | _ => []

/-- Node stored at `path` below `v`, `null` when there is none. -/
def getPath : JVal → List String → JVal
  | v, [] => v
  | v, k :: rest => getPath (lookup k v.fields) rest

/-- Tree with the node at `path` replaced by `x`; missing ancestors are
created and a leaf on the way is replaced by an object. -/
def setPath : JVal → List String → JVal → JVal
  | _, [], x => x
  | v, k :: rest, x => obj (putField k (setPath (lookup k v.fields) rest x) v.fields)

/-- Shallow merge (HTTP PATCH): every field of `data` is written as a child of
`path`, siblings are kept. -/
def updatePath (v : JVal) (path : List String) (data : List (String × JVal)) : JVal :=
  data.foldl (fun acc kv => setPath acc (path ++ [kv.1]) kv.2) v

/-- JavaScript truthiness. -/
def truthy : JVal → Bool
  | null => false
  | bool b => b
  | num n => n != 0
  | str s => s != ""
  | obj _ => true

/-- JavaScript `a || b`. -/
def or (a b : JVal) : JVal := if a.truthy then a else b

/-- JavaScript `a + n` for a number `n`: numeric addition when `a` is a
number, boolean or null, string concatenation otherwise. -/
def addNum (a : JVal) (n : Int) : JVal :=
  match a with
  | null => num n
  | bool b => num ((if b then 1 else 0) + n)
  | num m => num (m + n)
  | str s => str (s ++ toString n)
  | obj _ => str ("[object Object]" ++ toString n)

end JVal

/-! ## Remote calls -/

/-- State the bot runs against: the remote database, the failure flags of the
remote calls still to come, and the module-level `messageCounter`. -/
structure World where
  db : JVal
  faults : List Bool
  messageCounter : Nat
  deriving Inhabited

/-- Computation that may throw and that keeps the world it reached when it
does. -/
abbrev Remote (α : Type) := ExceptT String (StateM World) α

/-- One HTTP round trip: consumes the next failure flag and throws when it is
set. -/
def request : Remote Unit := do
  let w ← get
  match w.faults with
  | [] => pure ()
  | f :: rest =>
    set { w with faults := rest }
    if f then throw "fetch failed" else pure ()

namespace firebaseREST

/-- Model of `firebaseREST.get(path)`. -/
def get (path : List String) : Remote JVal := do
  request
  let w ← getThe World
  pure (w.db.getPath path)

/-- Model of `firebaseREST.set(path, data)`. -/
def set (path : List String) (data : JVal) : Remote Unit := do
  request
  modify fun w => { w with db := w.db.setPath path data }

/-- Model of `firebaseREST.update(path, data)`. -/
def update (path : List String) (data : List (String × JVal)) : Remote Unit := do
  request
  modify fun w => { w with db := w.db.updatePath path data }

/-- Model of `firebaseREST.increment(path, amount = 1)`: read, add, write
back. -/
def increment (path : List String) (amount : Int) : Remote JVal := do
  let current := (← get path).or (.num 0)
  set path (current.addNum amount)
  pure (current.addNum amount)

end firebaseREST

/-! ## Configuration -/

/-- Role names to track, `CONFIG.MAG_ROLES`. -/
def CONFIG.MAG_ROLES : List String := ["Mag 1", "Mag 2", "Mag 3", "Mag 4", "Mag 5"]

/-- Art channel names, `CONFIG.ART_CHANNELS`. -/
def CONFIG.ART_CHANNELS : List String := ["art", "artwork", "creations", "fan-art", "memes"]

/-! ## Strings -/

/-- JavaScript `s.toLowerCase()` on the ASCII letters; the configured role
names and channel keywords are ASCII. -/
def toLowerCase (s : String) : String := ⟨s.data.map Char.toLower⟩

/-- Whether the character list `hay` begins with `needle`. -/
def startsWith : List Char → List Char → Bool
  | _, [] => true
  | [], _ :: _ => false
  | h :: hay, n :: needle => h == n && startsWith hay needle

/-- Whether `needle` occurs in `hay` at some offset. -/
def includesChars : List Char → List Char → Bool
  | [], needle => startsWith [] needle
  | h :: hay, needle => startsWith (h :: hay) needle || includesChars hay needle

/-- JavaScript `hay.includes(needle)`. -/
def includes (hay needle : String) : Bool := includesChars hay.data needle.data

/-- Character list with the first occurrence of `c` replaced by `r`. -/
def replaceFirstChars (c r : Char) : List Char → List Char
  | [] => []
  | x :: xs => if x = c then r :: xs else x :: replaceFirstChars c r xs

/-- JavaScript `s.replace(c, r)` for one-character strings `c` and `r`: only
the first occurrence is replaced. -/
def replaceFirst (c r : Char) (s : String) : String := ⟨replaceFirstChars c r s.data⟩

/-! ## Discord objects -/

/-- Discord user: the fields the bot reads. -/
structure User where
  id : String
  username : String
  bot : Bool

/-- Guild member: `roles` lists the names of `member.roles.cache` in iteration
order and is `none` when `member.roles` is missing. -/
structure GuildMember where
  user : User
  displayName : String
  roles : Option (List String)
  joinedTimestamp : Option Int

/-- Message event: `guild` tells whether `message.guild` is present and
`attachments` is `message.attachments.size`. -/
structure Message where
  author : User
  guild : Bool
  member : Option GuildMember
  channelId : String
  channelName : String
  attachments : Nat

/-! ## Helper functions -/

/-- Loop of `getUserMagRole` over the remaining configured role names. -/
def getUserMagRole.loop (roles : List String) : List String → Option String
  | [] => none
  | roleName :: rest =>
    match roles.find? (fun r => includes (toLowerCase r) (toLowerCase roleName)) with
    | some _ => some roleName
    | none => getUserMagRole.loop roles rest

/-- Model of `getUserMagRole(member)`; `none` is the JavaScript `null`. -/
def getUserMagRole (member : Option GuildMember) : Option String :=
  match member with
  | none => none
  | some m =>
    match m.roles with
    | none => none
    | some roles => getUserMagRole.loop roles CONFIG.MAG_ROLES

/-- Model of `isArtChannel(channelName)`. -/
def isArtChannel (channelName : String) : Bool :=
  CONFIG.ART_CHANNELS.any (fun art => includes (toLowerCase channelName) (toLowerCase art))

/-! ## Database functions -/

/-- Model of `saveUserMessage`; `now` is `Date.now()` and `today` is
`getTodayString()`. -/
def saveUserMessage (now : Int) (today : String)
    (userId username displayName channelId channelName : String) (isArt : Bool) :
    Remote Unit := do
  let userData : List (String × JVal) :=
    [("username", .str username), ("displayName", .str displayName), ("lastActive", .num now)]
  try
    firebaseREST.update ["discord", "users", userId] userData
    let _ ← firebaseREST.increment ["discord", "users", userId, "totalMessages"] 1
    let _ ← firebaseREST.increment ["discord", "users", userId, "channels", channelId] 1
    let _ ← firebaseREST.increment ["discord", "users", userId, "daily", today] 1
    let _ ← firebaseREST.increment ["discord", "channels", channelId, "totalMessages"] 1
    firebaseREST.update ["discord", "channels", channelId] [("name", .str channelName)]
    if isArt then
      let _ ← firebaseREST.increment ["discord", "users", userId, "artSubmissions"] 1
      let _ ← firebaseREST.increment ["discord", "stats", "totalArt"] 1
    let _ ← firebaseREST.increment ["discord", "stats", "totalMessages"] 1
    let _ ← firebaseREST.increment ["discord", "stats", "daily", today] 1
  catch _ =>
    pure ()

/-- Model of `saveUserRole`; `now` is `Date.now()`.  The counter key is
`roleName.replace(' ', '_')`. -/
def saveUserRole (now : Int) (userId username roleName : String) : Remote Unit := do
  try
    firebaseREST.update ["discord", "users", userId]
      [("username", .str username), ("magRole", .str roleName), ("roleUpdated", .num now)]
    let _ ← firebaseREST.increment ["discord", "stats", "roles", replaceFirst ' ' '_' roleName] 1
  catch _ =>
    pure ()

/-! ## Views -/

/-- Entry of the leaderboard, as built by the `map` in `getLeaderboard`. -/
structure LeaderEntry where
  userId : String
  username : JVal
  displayName : JVal
  totalMessages : JVal
  artSubmissions : JVal
  magRole : JVal

namespace JVal

/-- JavaScript `Object.entries(v)`: the fields of an object in enumeration
order, the indexed characters of a string, nothing for the other values. -/
def entries : JVal → List (String × JVal)
  | obj fs => fs
  | str s => s.data.enum.map (fun ic => (toString ic.1, str (String.singleton ic.2)))
  | _ => []

/-- JavaScript property read `v.k` or `v[k]` for a data key `k`; reading a
property of `null` throws, which is `none`. -/
def prop (v : JVal) (k : String) : Option JVal :=
  match v with
  | null => none
  | obj fs => some (lookup k fs)
  | _ => some null

/-- JavaScript `ToNumber`, `none` for `NaN`; of the numeric strings only the
decimal integers are read. -/
def toNumber : JVal → Option Int
  | null => some 0
  | bool b => some (if b then 1 else 0)
  | num n => some n
  | str s => if s.trim.isEmpty then some 0 else s.trim.toInt?
  | obj _ => none

/-- JavaScript `a - b`, `none` for `NaN`. -/
def sub (a b : JVal) : Option Int :=
  match a.toNumber, b.toNumber with
  | some x, some y => some (x - y)
  | _, _ => none

end JVal

/-- The callback of `map` in `getLeaderboard`; `none` when it throws. -/
def getLeaderboard.project (entry : String × JVal) : Option LeaderEntry :=
  match entry.2 with
  | .null => none
  | data =>
    let field (k : String) : JVal := (data.prop k).getD .null
    some {
      userId := entry.1
      username := (field "username").or (.str "Unknown")
      displayName := ((field "displayName").or (field "username")).or (.str "Unknown")
      totalMessages := (field "totalMessages").or (.num 0)
      artSubmissions := (field "artSubmissions").or (.num 0)
      magRole := (field "magRole").or (.str "None") }

/-- JavaScript `xs.map(f)` for a callback that may throw. -/
def mapThrowing {α β : Type} (f : α → Option β) : List α → Option (List β)
  | [] => some []
  | x :: xs =>
    match f x with
    | none => none
    | some y =>
      match mapThrowing f xs with
      | none => none
      | some ys => some (y :: ys)

/-- The comparator of `sort` in `getLeaderboard` says that `a` may stay before
`b`: `b.totalMessages - a.totalMessages` is not positive (`NaN` counts as 0). -/
def getLeaderboard.keeps (a b : LeaderEntry) : Bool :=
  match b.totalMessages.sub a.totalMessages with
  | some d => decide (d ≤ 0)
  | none => true

/-- Insertion of `x` in front of an already sorted list: `x` moves right past
the entries that the comparator puts strictly before it. -/
def insertSorted {α : Type} (keeps : α → α → Bool) (x : α) : List α → List α
  | [] => [x]
  | y :: ys => if keeps x y then x :: y :: ys else y :: insertSorted keeps x ys

/-- JavaScript `xs.sort(compare)`, a stable sort. -/
def stableSort {α : Type} (keeps : α → α → Bool) : List α → List α
  | [] => []
  | x :: xs => insertSorted keeps x (stableSort keeps xs)

/-- JavaScript `xs.slice(0, end)`; a negative `end` counts from the end. -/
def sliceFromStart {α : Type} (xs : List α) (stop : Int) : List α :=
  if stop < 0 then xs.take (xs.length - stop.natAbs) else xs.take stop.toNat

/-- Model of `getLeaderboard(limit)`; callers that omit `limit` pass 10. -/
def getLeaderboard (limit : Int) : Remote (List LeaderEntry) := do
  try
    let users ← firebaseREST.get ["discord", "users"]
    if !users.truthy then
      pure []
    else
      match mapThrowing getLeaderboard.project users.entries with
      | none => throw "TypeError"
      | some projected =>
        let leaderboard := sliceFromStart (stableSort getLeaderboard.keeps projected) limit
        pure leaderboard
  catch _ =>
    pure []

/-- The default record of `getServerStats`. -/
def getServerStats.default : JVal :=
  .obj [("totalMessages", .num 0), ("totalArt", .num 0), ("roles", .obj [])]

/-- Model of `getServerStats()`. -/
def getServerStats : Remote JVal := do
  try
    let stats ← firebaseREST.get ["discord", "stats"]
    pure (stats.or getServerStats.default)
  catch _ =>
    pure getServerStats.default

/-- JavaScript `s.repeat(count)` for an integer `count`; a negative count
throws `RangeError`, which is `none`. -/
def repeatString (s : String) (count : Int) : Option String :=
  if count < 0 then none else some (String.join (List.replicate count.toNat s))

/-- One line of the embed of `handleRoles`: the role, the count read for it
and the bar drawn for it. -/
structure RoleLine where
  role : String
  count : JVal
  bar : String

/-- The callback of `map` in `handleRoles` once `count` is read; `none` when
it throws.  `Math.min(count, 20)` and `Math.max(0, 20 - count)` are `NaN` for
a count that is not a number, and `repeat` reads `NaN` as 0. -/
def handleRoles.line (role : String) (count : JVal) : Option RoleLine :=
  let filled : Int :=
    match count.toNumber with
    | some k => min k 20
    | none => 0
  let rest : Int :=
    match count.toNumber with
    | some k => max 0 (20 - k)
    | none => 0
  match repeatString "█" filled with
  | none => none
  | some full =>
    match repeatString "░" rest with
    | none => none
    | some blank => some { role := role, count := count, bar := full ++ blank }

/-- Model of `handleRoles` up to the text of the embed: the lines of the
description in order, each with its role, count and bar. -/
def handleRoles : Remote (List RoleLine) := do
  let stats ← getServerStats
  let roles := ((stats.prop "roles").getD .null).or (.obj [])
  match mapThrowing (fun role =>
      handleRoles.line role
        (((roles.prop (replaceFirst ' ' '_' role)).getD .null).or (.num 0)))
      CONFIG.MAG_ROLES with
  | none => throw "RangeError"
  | some lines => pure lines

/-! ## Discord event handlers -/

/-- The `isArt` flag that the `messageCreate` handler computes for a message
(the art-submission test). -/
def isArtSubmission (message : Message) : Bool :=
  isArtChannel message.channelName && decide (message.attachments > 0)

/-- The `displayName` of the `messageCreate` handler:
`message.member?.displayName || username`. -/
def messageCreate.displayName (message : Message) : String :=
  match message.member with
  | some m => if m.displayName != "" then m.displayName else message.author.username
  | none => message.author.username

/-- Model of the `messageCreate` handler; `now` and `today` are the clock
readings of `saveUserMessage` and `roleNow` the one of `saveUserRole`. -/
def messageCreate (now : Int) (today : String) (roleNow : Int) (message : Message) :
    Remote Unit := do
  if message.author.bot then
    pure ()
  else if !message.guild then
    pure ()
  else
    let userId := message.author.id
    let username := message.author.username
    let displayName := messageCreate.displayName message
    let channelId := message.channelId
    let channelName := message.channelName
    let isArt := isArtSubmission message
    saveUserMessage now today userId username displayName channelId channelName isArt
    let magRole := getUserMagRole message.member
    match magRole with
    | some role => saveUserRole roleNow userId username role
    | none => pure ()
    modify fun w => { w with messageCounter := w.messageCounter + 1 }

/-- Model of the `guildMemberUpdate` handler. -/
def guildMemberUpdate (roleNow : Int) (oldMember newMember : GuildMember) : Remote Unit := do
  let oldMagRole := getUserMagRole (some oldMember)
  let newMagRole := getUserMagRole (some newMember)
  if oldMagRole ≠ newMagRole then
    match newMagRole with
    | some role => saveUserRole roleNow newMember.user.id newMember.user.username role
    | none => pure ()

/-- JSON rendering of an optional timestamp. -/
def timestampJson : Option Int → JVal
  | some t => .num t
  | none => .null

/-- Model of the `guildMemberAdd` handler. -/
def guildMemberAdd (member : GuildMember) : Remote Unit := do
  let magRole := getUserMagRole (some member)
  firebaseREST.update ["discord", "users", member.user.id]
    [("username", .str member.user.username),
     ("displayName", .str member.displayName),
     ("joinedAt", timestampJson member.joinedTimestamp),
     ("magRole", .str (magRole.getD "None")),
     ("totalMessages", .num 0)]
  let _ ← firebaseREST.increment ["discord", "stats", "totalMembers"] 1

/-- Loop body of `syncAllMemberRoles` over the remaining members. -/
def syncAllMemberRoles.loop : List GuildMember → Remote Unit
  | [] => pure ()
  | member :: rest => do
    if member.user.bot then
      syncAllMemberRoles.loop rest
    else
      match getUserMagRole (some member) with
      | some magRole =>
        firebaseREST.update ["discord", "users", member.user.id]
          [("username", .str member.user.username),
           ("displayName", .str member.displayName),
           ("magRole", .str magRole)]
        syncAllMemberRoles.loop rest
      | none => syncAllMemberRoles.loop rest

/-- Model of `syncAllMemberRoles`; `guild` is `none` when the guild is not in
the cache, an error when `guild.members.fetch()` rejects, and the fetched
members otherwise. -/
def syncAllMemberRoles (guild : Option (Except String (List GuildMember))) : Remote Unit := do
  try
    match guild with
    | none => pure ()
    | some (.error e) => throw e
    | some (.ok members) => syncAllMemberRoles.loop members
  catch _ =>
    pure ()

/-! ## Running the model -/

/-- Outcome and final world of running `x` from the world `w`. -/
def Remote.exec {α : Type} (x : Remote α) (w : World) : Except String α × World :=
  x.run w

/-- World in which no remote call fails. -/
def World.reliable (db : JVal) (messageCounter : Nat) : World :=
  { db := db, faults := [], messageCounter := messageCounter }

/-- Value of a counter node: an absent counter counts as 0, a node that is not
a number has no value. -/
def JVal.count : JVal → Option Int
  | .null => some 0
  | .num n => some n
  | _ => none

/-- Store call that changes the database. -/
inductive Write where
  | update (path : List String) (data : List (String × JVal))
  | increment (path : List String) (amount : Int)

/-- Effect of a completed store call on the database. -/
def Write.apply : Write → JVal → JVal
  | .update path data, db => db.updatePath path data
  | .increment path amount, db =>
    db.setPath path (((db.getPath path).or (.num 0)).addNum amount)

/-- The store call as the bot issues it. -/
def Write.issue : Write → Remote Unit
  | .update path data => firebaseREST.update path data
  | .increment path amount => do
    let _ ← firebaseREST.increment path amount

/-- Number of remote calls behind a store call: an increment reads and then
writes. -/
def Write.calls : Write → Nat
  | .update _ _ => 1
  | .increment _ _ => 2

/-- Database after the store calls `ws` have completed in order. -/
def applyWrites (ws : List Write) (db : JVal) : JVal :=
  ws.foldl (fun acc w => w.apply acc) db

/-- Number of leading store calls of `ws` that complete under the failure
flags `faults`: a store call completes when none of its remote calls gets a
set flag. -/
def completedWrites : List Bool → List Write → Nat
  | _, [] => 0
  | faults, w :: ws =>
    if (faults.take w.calls).any (fun f => f) then 0
    else completedWrites (faults.drop w.calls) ws + 1

/-- The store calls of `saveUserMessage` in program order. -/
def saveUserMessage.writes (now : Int) (today : String)
    (userId username displayName channelId channelName : String) (isArt : Bool) : List Write :=
  [.update ["discord", "users", userId]
      [("username", .str username), ("displayName", .str displayName), ("lastActive", .num now)],
   .increment ["discord", "users", userId, "totalMessages"] 1,
   .increment ["discord", "users", userId, "channels", channelId] 1,
   .increment ["discord", "users", userId, "daily", today] 1,
   .increment ["discord", "channels", channelId, "totalMessages"] 1,
   .update ["discord", "channels", channelId] [("name", .str channelName)]]
  ++ (if isArt then
        [.increment ["discord", "users", userId, "artSubmissions"] 1,
         .increment ["discord", "stats", "totalArt"] 1]
      else [])
  ++ [.increment ["discord", "stats", "totalMessages"] 1,
      .increment ["discord", "stats", "daily", today] 1]

/-- The store calls of `saveUserRole` in program order. -/
def saveUserRole.writes (now : Int) (userId username roleName : String) : List Write :=
  [.update ["discord", "users", userId]
      [("username", .str username), ("magRole", .str roleName), ("roleUpdated", .num now)],
   .increment ["discord", "stats", "roles", replaceFirst ' ' '_' roleName] 1]

/-- The store calls `ws` issued one after the other. -/
def issueAll : List Write → Remote Unit
  | [] => pure ()
  | w :: ws => do
    w.issue
    issueAll ws

/-- One `saveUserMessage` call for a given user: the clock readings and the
remaining arguments. -/
structure MessageCall where
  now : Int
  today : String
  username : String
  displayName : String
  channelId : String
  channelName : String
  isArt : Bool

/-- A sequence of `saveUserMessage` calls for the user `userId`, one after the
other. -/
def recordMessages (userId : String) : List MessageCall → Remote Unit
  | [] => pure ()
  | c :: cs => do
    saveUserMessage c.now c.today userId c.username c.displayName c.channelId c.channelName
      c.isArt
    recordMessages userId cs

/-- Sum of the counters of a map node such as `users/<id>/channels`; `none`
when a field is not a number. -/
def sumCounters : List (String × JVal) → Option Int
  | [] => some 0
  | (_, .num n) :: rest => (sumCounters rest).map (fun total => n + total)
  | _ :: _ => none

/-- Numeric value of the `totalMessages` of a leaderboard entry (0 when it is
not a number). -/
def LeaderEntry.total (e : LeaderEntry) : Int := (e.totalMessages.toNumber).getD 0

/-- The configured role name `roleName` matches the member: its lower-cased
text occurs inside the lower-cased name of one of the assigned roles. -/
def matchesRole (roles : List String) (roleName : String) : Prop :=
  ∃ r ∈ roles, List.IsInfix (toLowerCase roleName).data (toLowerCase r).data

/-- Whether two paths part ways at some segment, so that neither node lies
inside the other. -/
def diverge : List String → List String → Bool
  | a :: p, b :: q => a != b || diverge p q
  | _, _ => false

/-- The counters of the store, by the place they are kept at. -/
inductive CounterPath where
  | userTotalMessages (userId : String)
  | userArtSubmissions (userId : String)
  | userChannel (userId channelId : String)
  | userDaily (userId date : String)
  | channelTotalMessages (channelId : String)
  | statsTotalMessages
  | statsTotalArt
  | statsTotalMembers
  | statsDaily (date : String)
  | statsRole (slug : String)
  deriving DecidableEq

/-- Store path of a counter. -/
def CounterPath.path : CounterPath → List String
  | .userTotalMessages userId => ["discord", "users", userId, "totalMessages"]
  | .userArtSubmissions userId => ["discord", "users", userId, "artSubmissions"]
  | .userChannel userId channelId => ["discord", "users", userId, "channels", channelId]
  | .userDaily userId date => ["discord", "users", userId, "daily", date]
  | .channelTotalMessages channelId => ["discord", "channels", channelId, "totalMessages"]
  | .statsTotalMessages => ["discord", "stats", "totalMessages"]
  | .statsTotalArt => ["discord", "stats", "totalArt"]
  | .statsTotalMembers => ["discord", "stats", "totalMembers"]
  | .statsDaily date => ["discord", "stats", "daily", date]
  | .statsRole slug => ["discord", "stats", "roles", slug]

/-- Value of a counter in a database: 0 when absent, `none` when the node is
not a number. -/
def counterAt (db : JVal) (c : CounterPath) : Option Int := (db.getPath c.path).count

/-- The operations that write to the store. -/
inductive Operation where
  | recordMessage (now : Int) (today userId username displayName channelId channelName : String)
      (isArt : Bool)
  | recordRole (now : Int) (userId username roleName : String)
  | recordJoin (member : GuildMember)
  | syncAllMemberRoles (guild : Option (Except String (List GuildMember)))

/-- The code behind an operation. -/
def Operation.run : Operation → Remote Unit
  | .recordMessage now today userId username displayName channelId channelName isArt =>
    saveUserMessage now today userId username displayName channelId channelName isArt
  | .recordRole now userId username roleName => saveUserRole now userId username roleName
  | .recordJoin member => guildMemberAdd member
  | .syncAllMemberRoles guild => Seismic.syncAllMemberRoles guild

/-- A store call that cannot lower the counter `c`: an update that writes
beside it, or an increment by a non-negative amount of `c` itself or of a node
beside it. -/
def Write.spares (c : CounterPath) : Write → Prop
  | .update path data => ∀ kv ∈ data, diverge c.path (path ++ [kv.1]) = true
  | .increment q a => 0 ≤ a ∧ (q = c.path ∨ diverge c.path q = true)

/-- The store calls of `guildMemberAdd` in program order. -/
def guildMemberAdd.writes (member : GuildMember) : List Write :=
  [.update ["discord", "users", member.user.id]
      [("username", .str member.user.username),
       ("displayName", .str member.displayName),
       ("joinedAt", timestampJson member.joinedTimestamp),
       ("magRole", .str ((getUserMagRole (some member)).getD "None")),
       ("totalMessages", .num 0)],
   .increment ["discord", "stats", "totalMembers"] 1]

/-- The store calls of the loop of `syncAllMemberRoles` in program order. -/
def syncAllMemberRoles.writes : List GuildMember → List Write
  | [] => []
  | member :: rest =>
    if member.user.bot then syncAllMemberRoles.writes rest
    else
      match getUserMagRole (some member) with
      | some magRole =>
        .update ["discord", "users", member.user.id]
          [("username", .str member.user.username),
           ("displayName", .str member.displayName),
           ("magRole", .str magRole)] :: syncAllMemberRoles.writes rest
      | none => syncAllMemberRoles.writes rest

/-- The store calls of an operation in program order, as far as the
operation gets when no remote call fails. -/
def Operation.writes : Operation → List Write
  | .recordMessage now today userId username displayName channelId channelName isArt =>
    saveUserMessage.writes now today userId username displayName channelId channelName isArt
  | .recordRole now userId username roleName => saveUserRole.writes now userId username roleName
  | .recordJoin member => guildMemberAdd.writes member
  | .syncAllMemberRoles (some (.ok members)) => syncAllMemberRoles.writes members
  | .syncAllMemberRoles _ => []

/-! ## Interleaved increments -/

/-- Progress of one `firebaseREST.increment(path, amount)` call: before its
`get`, between its `get` and its `set` (holding the `current` it read), and
after its `set` (holding the value it returns). -/
inductive IncrementCall where
  | pending (path : List String) (amount : Int)
  | fetched (path : List String) (amount : Int) (current : JVal)
  | finished (result : JVal)

/-- The next remote call of an increment call, taken as one atomic step on the
database: first the `get`, then the `set`. -/
def IncrementCall.step (db : JVal) : IncrementCall → JVal × IncrementCall
  | .pending path amount => (db, .fetched path amount ((db.getPath path).or (.num 0)))
  | .fetched path amount current =>
    (db.setPath path (current.addNum amount), .finished (current.addNum amount))
  | .finished result => (db, .finished result)

/-- Two increment calls in flight over one database. -/
structure Race where
  db : JVal
  first : IncrementCall
  second : IncrementCall

/-- The race after the scheduler has run `schedule`: `false` lets the first
call take its next step, `true` the second. -/
def Race.run : List Bool → Race → Race
  | [], r => r
  | false :: schedule, r =>
    Race.run schedule { r with db := (r.first.step r.db).1, first := (r.first.step r.db).2 }
  | true :: schedule, r =>
    Race.run schedule { r with db := (r.second.step r.db).1, second := (r.second.step r.db).2 }

/-! ## Lemmas on the store -/

namespace JVal

theorem fields_obj (fs : List (String × JVal)) : (obj fs).fields = fs := rfl

theorem lookup_filter_ne (k : String) (fs : List (String × JVal)) :
    lookup k (fs.filter (fun kv => kv.1 != k)) = null := by
  induction fs with
  | nil => rfl
  | cons kv fs ih =>
    by_cases h : kv.1 = k
    · simp [List.filter_cons, h, ih]
    · simp [List.filter_cons, h, lookup, ih]

theorem lookup_filter_other (k k' : String) (h : k' ≠ k) (fs : List (String × JVal)) :
    lookup k' (fs.filter (fun kv => kv.1 != k)) = lookup k' fs := by
  induction fs with
  | nil => rfl
  | cons kv fs ih =>
    by_cases hk : kv.1 = k
    · have : ¬ k = k' := fun e => h e.symm
      simp [List.filter_cons, hk, lookup, this, ih]
    · by_cases hk' : kv.1 = k'
      · simp [List.filter_cons, hk, lookup, hk', h]
      · simp [List.filter_cons, hk, lookup, hk', ih]

theorem lookup_replaceField_same (k : String) (v : JVal) (fs : List (String × JVal)) :
    lookup k (replaceField k v fs) = v := by
  induction fs with
  | nil => simp [replaceField, lookup]
  | cons kv fs ih =>
    by_cases h : kv.1 = k
    · simp [replaceField, h, lookup]
    · simp [replaceField, h, lookup, ih]

theorem lookup_replaceField_other (k k' : String) (h : k' ≠ k) (v : JVal)
    (fs : List (String × JVal)) :
    lookup k' (replaceField k v fs) = lookup k' fs := by
  have hne : ¬ k = k' := fun e => h e.symm
  induction fs with
  | nil => simp [replaceField, lookup, hne]
  | cons kv fs ih =>
    by_cases hk : kv.1 = k
    · simp [replaceField, hk, lookup, hne]
    · by_cases hk' : kv.1 = k'
      · simp [replaceField, hk, lookup, hk', h]
      · simp [replaceField, hk, lookup, hk', ih]

theorem lookup_putField_same (k : String) (v : JVal) (fs : List (String × JVal)) :
    lookup k (putField k v fs) = v := by
  cases v <;> simp [putField, lookup_filter_ne, lookup_replaceField_same]

theorem lookup_putField_other (k k' : String) (h : k' ≠ k) (v : JVal)
    (fs : List (String × JVal)) :
    lookup k' (putField k v fs) = lookup k' fs := by
  cases v <;>
    simp [putField, lookup_filter_other k k' h, lookup_replaceField_other k k' h]

theorem getPath_null (p : List String) : getPath null p = null := by
  induction p with
  | nil => rfl
  | cons k p ih => simpa [getPath, fields, lookup] using ih

theorem getPath_setPath_same (db : JVal) (p : List String) (x : JVal) :
    getPath (setPath db p x) p = x := by
  induction p generalizing db with
  | nil => rfl
  | cons k p ih => simp [getPath, setPath, fields, lookup_putField_same, ih]

theorem getPath_setPath_append (db : JVal) (p r : List String) (x : JVal) :
    getPath (setPath db p x) (p ++ r) = getPath x r := by
  induction p generalizing db with
  | nil => rfl
  | cons k p ih => simp [getPath, setPath, fields, lookup_putField_same, ih]

theorem getPath_append (db : JVal) (p r : List String) :
    getPath db (p ++ r) = getPath (getPath db p) r := by
  induction p generalizing db with
  | nil => rfl
  | cons k p ih => simp [getPath, ih]

theorem getPath_setPath_diverge (db : JVal) (p q : List String) (x : JVal)
    (h : diverge p q = true) : getPath (setPath db q x) p = getPath db p := by
  induction p generalizing db q with
  | nil => simp [diverge] at h
  | cons a p ih =>
    cases q with
    | nil => simp [diverge] at h
    | cons b q =>
      by_cases hab : a = b
      · subst hab
        simp [diverge] at h
        simp [getPath, setPath, fields, lookup_putField_same, ih _ _ h]
      · simp [getPath, setPath, fields, lookup_putField_other b a hab]

theorem fields_getPath_setPath_child (db : JVal) (p : List String) (k : String) (x : JVal) :
    (getPath (setPath db (p ++ [k]) x) p).fields = putField k x (getPath db p).fields := by
  induction p generalizing db with
  | nil => simp [getPath, setPath, fields]
  | cons a p ih => simp [getPath, setPath, fields_obj, lookup_putField_same, ih]

theorem getPath_updatePath_diverge (db : JVal) (p path : List String)
    (data : List (String × JVal)) (h : ∀ kv ∈ data, diverge p (path ++ [kv.1]) = true) :
    getPath (updatePath db path data) p = getPath db p := by
  unfold updatePath
  induction data generalizing db with
  | nil => rfl
  | cons kv data ih =>
    simp only [List.foldl_cons]
    rw [ih _ (fun kv' hkv => h kv' (List.mem_cons_of_mem _ hkv))]
    exact getPath_setPath_diverge _ _ _ _ (h kv (List.mem_cons_self _ _))

theorem or_addNum_of_count (v : JVal) (n a : Int) (h : v.count = some n) :
    (v.or (num 0)).addNum a = num (n + a) := by
  cases v with
  | null => simp [count] at h; subst h; simp [JVal.or, truthy, addNum]
  | num m =>
    simp [count] at h; subst h
    by_cases hm : m = 0
    · simp [JVal.or, truthy, addNum, hm]
    · simp [JVal.or, truthy, addNum, hm]
  | bool b => simp [count] at h
  | str s => simp [count] at h
  | obj fs => simp [count] at h

theorem putField_addNum (k : String) (a : JVal) (n : Int) (fs : List (String × JVal)) :
    putField k (a.addNum n) fs = replaceField k (a.addNum n) fs := by
  cases a <;> rfl

end JVal

theorem getPath_apply_increment_same (db : JVal) (p : List String) (a : Int) :
    ((Write.increment p a).apply db).getPath p = ((db.getPath p).or (.num 0)).addNum a := by
  simp [Write.apply, JVal.getPath_setPath_same]

theorem getPath_apply_increment_diverge (db : JVal) (p q : List String) (a : Int)
    (h : diverge p q = true) :
    ((Write.increment q a).apply db).getPath p = db.getPath p := by
  simp [Write.apply, JVal.getPath_setPath_diverge _ _ _ _ h]

theorem getPath_apply_update_diverge (db : JVal) (p path : List String)
    (data : List (String × JVal)) (h : ∀ kv ∈ data, diverge p (path ++ [kv.1]) = true) :
    ((Write.update path data).apply db).getPath p = db.getPath p := by
  simp [Write.apply, JVal.getPath_updatePath_diverge _ _ _ _ h]

theorem fields_getPath_apply_increment_child (db : JVal) (p : List String) (k : String)
    (a : Int) :
    (((Write.increment (p ++ [k]) a).apply db).getPath p).fields =
      JVal.replaceField k (((JVal.lookup k (db.getPath p).fields).or (.num 0)).addNum a)
        (db.getPath p).fields := by
  simp only [Write.apply, JVal.fields_getPath_setPath_child, JVal.putField_addNum,
    JVal.getPath_append, JVal.getPath]

theorem sumCounters_replaceField (k : String) (fs : List (String × JVal)) (n : Int)
    (h : sumCounters fs = some n) :
    sumCounters (JVal.replaceField k (((JVal.lookup k fs).or (.num 0)).addNum 1) fs) =
      some (n + 1) := by
  induction fs generalizing n with
  | nil =>
    simp [sumCounters] at h
    subst h
    simp [JVal.lookup, JVal.or, JVal.truthy, JVal.addNum, JVal.replaceField, sumCounters]
  | cons kv fs ih =>
    rcases kv with ⟨k', v⟩
    cases v with
    | num m =>
      simp only [sumCounters, Option.map_eq_some'] at h
      obtain ⟨t, ht, rfl⟩ := h
      by_cases hk : k' = k
      · subst hk
        simp only [JVal.lookup, if_true, JVal.replaceField]
        rw [JVal.or_addNum_of_count (.num m) m 1 rfl]
        simp [sumCounters, ht]
        ring
      · simp only [JVal.lookup, hk, if_false, JVal.replaceField]
        simp [sumCounters, ih t ht]
        ring
    | null => simp [sumCounters] at h
    | bool b => simp [sumCounters] at h
    | str s => simp [sumCounters] at h
    | obj gs => simp [sumCounters] at h

/-! ## Lemmas on running the model -/

section Exec

variable {α β : Type}

theorem exec_pure (a : α) (w : World) : (pure a : Remote α).exec w = (.ok a, w) := rfl

theorem exec_bind (x : Remote α) (f : α → Remote β) (w : World) :
    (x >>= f).exec w =
      match x.exec w with
      | (.ok a, w') => (f a).exec w'
      | (.error e, w') => (.error e, w') := by
  unfold Remote.exec
  simp only [ExceptT.run, bind, ExceptT.bind, ExceptT.mk, ExceptT.bindCont, StateT.bind]
  rcases x w with ⟨r, w'⟩
  cases r <;> rfl

theorem exec_throw (e : String) (w : World) : (throw e : Remote α).exec w = (.error e, w) := rfl

theorem exec_tryCatch (x : Remote α) (h : String → Remote α) (w : World) :
    (tryCatch x h).exec w =
      match x.exec w with
      | (.ok a, w') => (.ok a, w')
      | (.error e, w') => (h e).exec w' := by
  unfold Remote.exec
  simp only [ExceptT.run, tryCatch, tryCatchThe, MonadExceptOf.tryCatch, ExceptT.tryCatch,
    ExceptT.mk, bind, StateT.bind]
  rcases x w with ⟨r, w'⟩
  cases r <;> rfl

theorem exec_request (w : World) :
    request.exec w =
      match w.faults with
      | [] => (.ok (), w)
      | true :: rest => (.error "fetch failed", { w with faults := rest })
      | false :: rest => (.ok (), { w with faults := rest }) := by
  rcases w with ⟨db, faults, mc⟩
  rcases faults with _ | ⟨f, rest⟩
  · rfl
  · cases f <;> rfl

theorem exec_request_ok (w : World) (h : w.faults.head? ≠ some true) :
    request.exec w = (.ok (), { w with faults := w.faults.tail }) := by
  rw [exec_request]
  rcases w with ⟨db, faults, mc⟩
  rcases faults with _ | ⟨f, rest⟩
  · rfl
  · cases f
    · rfl
    · simp at h

theorem exec_request_failed (w : World) (h : w.faults.head? = some true) :
    request.exec w = (.error "fetch failed", { w with faults := w.faults.tail }) := by
  rw [exec_request]
  rcases w with ⟨db, faults, mc⟩
  rcases faults with _ | ⟨f, rest⟩
  · simp at h
  · cases f
    · simp at h
    · rfl

theorem exec_get (path : List String) (w : World) :
    (firebaseREST.get path).exec w =
      match request.exec w with
      | (.ok _, w') => (.ok (w'.db.getPath path), w')
      | (.error e, w') => (.error e, w') := by
  unfold firebaseREST.get
  rw [exec_bind]
  rcases request.exec w with ⟨r, w'⟩
  cases r <;> rfl

theorem exec_set (path : List String) (data : JVal) (w : World) :
    (firebaseREST.set path data).exec w =
      match request.exec w with
      | (.ok _, w') => (.ok (), { w' with db := w'.db.setPath path data })
      | (.error e, w') => (.error e, w') := by
  unfold firebaseREST.set
  rw [exec_bind]
  rcases request.exec w with ⟨r, w'⟩
  cases r <;> rfl

theorem exec_update (path : List String) (data : List (String × JVal)) (w : World) :
    (firebaseREST.update path data).exec w =
      match request.exec w with
      | (.ok _, w') => (.ok (), { w' with db := w'.db.updatePath path data })
      | (.error e, w') => (.error e, w') := by
  unfold firebaseREST.update
  rw [exec_bind]
  rcases request.exec w with ⟨r, w'⟩
  cases r <;> rfl

theorem saveUserMessage_eq_issueAll (now : Int) (today : String)
    (userId username displayName channelId channelName : String) (isArt : Bool) :
    saveUserMessage now today userId username displayName channelId channelName isArt =
      tryCatch
        (issueAll (saveUserMessage.writes now today userId username displayName channelId
          channelName isArt))
        (fun _ => pure ()) := by
  cases isArt <;>
    simp [saveUserMessage, saveUserMessage.writes, issueAll, Write.issue, bind_assoc]

theorem exec_issue_ok (wr : Write) (w : World)
    (h : (w.faults.take wr.calls).any (fun f => f) = false) :
    wr.issue.exec w =
      (.ok (), { w with db := wr.apply w.db, faults := w.faults.drop wr.calls }) := by
  rcases w with ⟨db, faults, mc⟩
  cases wr with
  | update path data =>
    rcases faults with _ | ⟨f, rest⟩
    · simp [Write.issue, exec_update, exec_request, Write.apply]
    · cases f
      · simp [Write.issue, exec_update, exec_request, Write.apply, Write.calls]
      · simp [Write.calls] at h
  | increment path amount =>
    rcases faults with _ | ⟨f, rest⟩
    · simp [Write.issue, firebaseREST.increment, exec_bind, exec_get, exec_set, exec_request,
        exec_pure, Write.apply]
    · cases f
      · rcases rest with _ | ⟨g, rest⟩
        · simp [Write.issue, firebaseREST.increment, exec_bind, exec_get, exec_set,
            exec_request, exec_pure, Write.apply, Write.calls]
        · cases g
          · simp [Write.issue, firebaseREST.increment, exec_bind, exec_get, exec_set,
              exec_request, exec_pure, Write.apply, Write.calls]
          · simp [Write.calls] at h
      · simp [Write.calls] at h

theorem exec_issue_error (wr : Write) (w : World)
    (h : (w.faults.take wr.calls).any (fun f => f) = true) :
    ∃ e w', wr.issue.exec w = (.error e, w') ∧ w'.db = w.db ∧
      w'.messageCounter = w.messageCounter := by
  rcases w with ⟨db, faults, mc⟩
  cases wr with
  | update path data =>
    rcases faults with _ | ⟨f, rest⟩
    · simp [Write.calls] at h
    · cases f
      · simp [Write.calls] at h
      · exact ⟨"fetch failed", { db := db, faults := rest, messageCounter := mc },
          by simp [Write.issue, exec_update, exec_request], rfl, rfl⟩
  | increment path amount =>
    rcases faults with _ | ⟨f, rest⟩
    · simp [Write.calls] at h
    · cases f
      · rcases rest with _ | ⟨g, rest⟩
        · simp [Write.calls] at h
        · cases g
          · simp [Write.calls] at h
          · exact ⟨"fetch failed", { db := db, faults := rest, messageCounter := mc },
              by simp [Write.issue, firebaseREST.increment, exec_bind, exec_get, exec_set,
                exec_request, exec_pure], rfl, rfl⟩
      · exact ⟨"fetch failed", { db := db, faults := rest, messageCounter := mc },
          by simp [Write.issue, firebaseREST.increment, exec_bind, exec_get, exec_set,
            exec_request, exec_pure], rfl, rfl⟩

theorem exec_issueAll (ws : List Write) (w : World) :
    ((issueAll ws).exec w).2.db = applyWrites (ws.take (completedWrites w.faults ws)) w.db ∧
      ((issueAll ws).exec w).2.messageCounter = w.messageCounter ∧
      (w.faults = [] → (issueAll ws).exec w =
        (.ok (), { w with db := applyWrites ws w.db })) := by
  induction ws generalizing w with
  | nil => simp [issueAll, exec_pure, applyWrites, completedWrites]
  | cons wr ws ih =>
    rw [issueAll, exec_bind]
    cases h : (w.faults.take wr.calls).any (fun f => f) with
    | false =>
      rw [exec_issue_ok wr w h]
      obtain ⟨h1, h2, h3⟩ := ih { w with db := wr.apply w.db, faults := w.faults.drop wr.calls }
      refine ⟨?_, ?_, ?_⟩
      · simp [h1, completedWrites, h, applyWrites]
      · simp [h2]
      · intro hf
        have := h3 (by simp [hf])
        simp only [hf, List.drop_nil] at this ⊢
        rw [this]
        simp [applyWrites]
    | true =>
      obtain ⟨e, w', he, hdb, hmc⟩ := exec_issue_error wr w h
      rw [he]
      refine ⟨?_, ?_, ?_⟩
      · simp [completedWrites, h, applyWrites, hdb]
      · simp [hmc]
      · intro hf
        simp [hf] at h

theorem exec_guarded_issueAll (ws : List Write) (w : World) :
    ((tryCatch (issueAll ws) (fun _ => pure ())).exec w).1 = .ok () ∧
    ((tryCatch (issueAll ws) (fun _ => pure ())).exec w).2.db =
      applyWrites (ws.take (completedWrites w.faults ws)) w.db ∧
    ((tryCatch (issueAll ws) (fun _ => pure ())).exec w).2.messageCounter = w.messageCounter ∧
    (w.faults = [] → (tryCatch (issueAll ws) (fun _ => pure ())).exec w =
        (.ok (), { w with db := applyWrites ws w.db })) := by
  obtain ⟨h1, h2, h3⟩ := exec_issueAll ws w
  rw [exec_tryCatch]
  rcases hr : (issueAll ws).exec w with ⟨r, w'⟩
  rw [hr] at h1 h2 h3
  cases r with
  | ok a =>
    refine ⟨rfl, h1, h2, ?_⟩
    intro hf
    have := h3 hf
    simpa using this
  | error e =>
    refine ⟨rfl, h1, h2, ?_⟩
    intro hf
    have := h3 hf
    simp at this

end Exec

/-! ## Effect of `saveUserMessage` on the counters of its user -/

theorem exec_saveUserMessage_reliable (now : Int) (today : String)
    (userId username displayName channelId channelName : String) (isArt : Bool)
    (db : JVal) (mc : Nat) :
    (saveUserMessage now today userId username displayName channelId channelName isArt).exec
        (World.reliable db mc) =
      (.ok (), World.reliable
        (applyWrites (saveUserMessage.writes now today userId username displayName channelId
          channelName isArt) db) mc) := by
  rw [saveUserMessage_eq_issueAll]
  exact (exec_guarded_issueAll _ (World.reliable db mc)).2.2.2 rfl

theorem totalMessages_saveUserMessage (now : Int) (today : String)
    (userId username displayName channelId channelName : String) (isArt : Bool)
    (db : JVal) (n : Int)
    (h : (db.getPath ["discord", "users", userId, "totalMessages"]).count = some n) :
    (applyWrites (saveUserMessage.writes now today userId username displayName channelId
        channelName isArt) db).getPath ["discord", "users", userId, "totalMessages"] =
      .num (n + 1) := by
  cases isArt <;>
    simp [applyWrites, saveUserMessage.writes, getPath_apply_increment_diverge,
      getPath_apply_update_diverge, getPath_apply_increment_same, diverge,
      JVal.or_addNum_of_count _ _ _ h]

theorem channels_saveUserMessage (now : Int) (today : String)
    (userId username displayName channelId channelName : String) (isArt : Bool)
    (db : JVal) (n : Int)
    (h : sumCounters (db.getPath ["discord", "users", userId, "channels"]).fields = some n) :
    sumCounters ((applyWrites (saveUserMessage.writes now today userId username displayName
        channelId channelName isArt) db).getPath
          ["discord", "users", userId, "channels"]).fields = some (n + 1) := by
  have child := fun x => fields_getPath_apply_increment_child x
    ["discord", "users", userId, "channels"] channelId 1
  simp only [List.cons_append, List.nil_append] at child
  cases isArt <;>
    simp [applyWrites, saveUserMessage.writes, getPath_apply_increment_diverge,
      getPath_apply_update_diverge, diverge, child, sumCounters_replaceField _ _ _ h]

theorem recordMessages_counts (userId : String) (calls : List MessageCall) (db : JVal)
    (mc : Nat) (n : Int)
    (ht : (db.getPath ["discord", "users", userId, "totalMessages"]).count = some n)
    (hc : sumCounters (db.getPath ["discord", "users", userId, "channels"]).fields = some n) :
    ((recordMessages userId calls).exec (World.reliable db mc)).1 = .ok () ∧
    ((((recordMessages userId calls).exec (World.reliable db mc)).2.db.getPath
        ["discord", "users", userId, "totalMessages"]).count = some (n + calls.length)) ∧
    sumCounters (((recordMessages userId calls).exec (World.reliable db mc)).2.db.getPath
        ["discord", "users", userId, "channels"]).fields = some (n + calls.length) := by
  induction calls generalizing db n with
  | nil => simp [recordMessages, exec_pure, World.reliable, ht, hc]
  | cons c cs ih =>
    rw [recordMessages, exec_bind, exec_saveUserMessage_reliable]
    have ht' := totalMessages_saveUserMessage c.now c.today userId c.username c.displayName
      c.channelId c.channelName c.isArt db n ht
    have hc' := channels_saveUserMessage c.now c.today userId c.username c.displayName
      c.channelId c.channelName c.isArt db n hc
    obtain ⟨h1, h2, h3⟩ := ih _ (n + 1) (by rw [ht']; rfl) hc'
    refine ⟨h1, ?_, ?_⟩
    · rw [h2]; simp; ring
    · rw [h3]; simp; ring

/-- C1: starting from a store with no record for the user, after any sequence
of `saveUserMessage` calls for that user, all store calls succeeding, the
stored `totalMessages` of the user is the number of calls and the counters
under `channels` of the user sum to the same number. -/
theorem recordMessages_totalMessages_eq_calls (userId : String) (calls : List MessageCall)
    (db : JVal) (mc : Nat)
    (h : db.getPath ["discord", "users", userId] = .null) :
    ((recordMessages userId calls).exec (World.reliable db mc)).1 = .ok () ∧
    (((recordMessages userId calls).exec (World.reliable db mc)).2.db.getPath
        ["discord", "users", userId, "totalMessages"]).count = some (calls.length : Int) ∧
    sumCounters (((recordMessages userId calls).exec (World.reliable db mc)).2.db.getPath
        ["discord", "users", userId, "channels"]).fields = some (calls.length : Int) ∧
    (sumCounters (((recordMessages userId calls).exec (World.reliable db mc)).2.db.getPath
        ["discord", "users", userId, "channels"]).fields =
      (((recordMessages userId calls).exec (World.reliable db mc)).2.db.getPath
        ["discord", "users", userId, "totalMessages"]).count) := by
  have hsplit : ∀ k, db.getPath ["discord", "users", userId, k] = .null := by
    intro k
    have := JVal.getPath_append db ["discord", "users", userId] [k]
    simp only [List.cons_append, List.nil_append] at this
    rw [this, h, JVal.getPath_null]
  obtain ⟨h1, h2, h3⟩ := recordMessages_counts userId calls db mc 0
    (by rw [hsplit]; rfl) (by rw [hsplit]; rfl)
  simp only [zero_add] at h2 h3
  exact ⟨h1, h2, h3, h3.trans h2.symm⟩

/-- C1 at a concrete input: three messages in two channels, one of them an art
submission, from an empty store. -/
theorem recordMessages_totalMessages_eq_calls_witness :
    (JVal.null.getPath ["discord", "users", "42"] = .null) ∧
    ((((recordMessages "42"
        [⟨1000, "2024-05-01", "ann", "Ann", "7", "general", false⟩,
         ⟨2000, "2024-05-01", "ann", "Ann", "8", "fan-art", true⟩,
         ⟨3000, "2024-05-02", "ann", "Ann", "7", "general", false⟩]).exec
          (World.reliable .null 0)).2.db.getPath
        ["discord", "users", "42", "totalMessages"]).count = some 3) :=
  ⟨rfl, (recordMessages_totalMessages_eq_calls "42"
        [⟨1000, "2024-05-01", "ann", "Ann", "7", "general", false⟩,
         ⟨2000, "2024-05-01", "ann", "Ann", "8", "fan-art", true⟩,
         ⟨3000, "2024-05-02", "ann", "Ann", "7", "general", false⟩] .null 0 rfl).2.1⟩

/-- C2: a `saveUserMessage` call whose store calls all succeed raises
`users/<userId>/artSubmissions` and `stats/totalArt` by exactly 1 each when
`isArt` is true (an absent counter counting as 0) and leaves both nodes as
they were when `isArt` is false. -/
theorem saveUserMessage_art_counters (now : Int) (today : String)
    (userId username displayName channelId channelName : String) (isArt : Bool)
    (db : JVal) (mc : Nat) :
    (isArt = true →
      (∀ a : Int, (db.getPath ["discord", "users", userId, "artSubmissions"]).count = some a →
        ((saveUserMessage now today userId username displayName channelId channelName
            isArt).exec (World.reliable db mc)).2.db.getPath
          ["discord", "users", userId, "artSubmissions"] = .num (a + 1)) ∧
      (∀ t : Int, (db.getPath ["discord", "stats", "totalArt"]).count = some t →
        ((saveUserMessage now today userId username displayName channelId channelName
            isArt).exec (World.reliable db mc)).2.db.getPath
          ["discord", "stats", "totalArt"] = .num (t + 1))) ∧
    (isArt = false →
      ((saveUserMessage now today userId username displayName channelId channelName
          isArt).exec (World.reliable db mc)).2.db.getPath
        ["discord", "users", userId, "artSubmissions"] =
          db.getPath ["discord", "users", userId, "artSubmissions"] ∧
      ((saveUserMessage now today userId username displayName channelId channelName
          isArt).exec (World.reliable db mc)).2.db.getPath
        ["discord", "stats", "totalArt"] = db.getPath ["discord", "stats", "totalArt"]) := by
  rw [exec_saveUserMessage_reliable]
  refine ⟨?_, ?_⟩
  · intro hart
    subst hart
    refine ⟨?_, ?_⟩
    · intro a ha
      simp [World.reliable, applyWrites, saveUserMessage.writes, getPath_apply_increment_diverge,
        getPath_apply_update_diverge, getPath_apply_increment_same, diverge,
        JVal.or_addNum_of_count _ _ _ ha]
    · intro t ht
      simp [World.reliable, applyWrites, saveUserMessage.writes, getPath_apply_increment_diverge,
        getPath_apply_update_diverge, getPath_apply_increment_same, diverge,
        JVal.or_addNum_of_count _ _ _ ht]
  · intro hart
    subst hart
    simp [World.reliable, applyWrites, saveUserMessage.writes, getPath_apply_increment_diverge,
      getPath_apply_update_diverge, diverge]

/-- C2 at a concrete input: an art submission on a store where the user has 2
art submissions and the global art counter is absent. -/
theorem saveUserMessage_art_counters_witness :
    ((saveUserMessage 1000 "2024-05-01" "42" "ann" "Ann" "8" "fan-art" true).exec
        (World.reliable
          (.obj [("discord", .obj [("users", .obj [("42", .obj [("artSubmissions", .num 2)])])])])
          0)).2.db.getPath ["discord", "users", "42", "artSubmissions"] = .num (2 + 1) ∧
    ((saveUserMessage 1000 "2024-05-01" "42" "ann" "Ann" "8" "fan-art" true).exec
        (World.reliable
          (.obj [("discord", .obj [("users", .obj [("42", .obj [("artSubmissions", .num 2)])])])])
          0)).2.db.getPath ["discord", "stats", "totalArt"] = .num (0 + 1) :=
  ⟨((saveUserMessage_art_counters 1000 "2024-05-01" "42" "ann" "Ann" "8" "fan-art" true
      (.obj [("discord", .obj [("users", .obj [("42", .obj [("artSubmissions", .num 2)])])])])
      0).1 rfl).1 2 rfl,
   ((saveUserMessage_art_counters 1000 "2024-05-01" "42" "ann" "Ann" "8" "fan-art" true
      (.obj [("discord", .obj [("users", .obj [("42", .obj [("artSubmissions", .num 2)])])])])
      0).1 rfl).2 0 rfl⟩

/-! ## Stable sorting -/

section Sorting

variable {α : Type}

theorem mem_insertSorted (keeps : α → α → Bool) (x a : α) (l : List α) :
    a ∈ insertSorted keeps x l ↔ a = x ∨ a ∈ l := by
  induction l with
  | nil => simp [insertSorted]
  | cons y ys ih =>
    by_cases h : keeps x y = true
    · simp [insertSorted, h]
    · simp [insertSorted, h, ih]
      tauto

theorem mem_stableSort (keeps : α → α → Bool) (a : α) (l : List α) :
    a ∈ stableSort keeps l ↔ a ∈ l := by
  induction l with
  | nil => simp [stableSort]
  | cons x xs ih => simp [stableSort, mem_insertSorted, ih]

theorem insertSorted_congr (keeps keeps' : α → α → Bool) (x : α) (l : List α)
    (h : ∀ b ∈ l, keeps x b = keeps' x b) :
    insertSorted keeps x l = insertSorted keeps' x l := by
  induction l with
  | nil => rfl
  | cons y ys ih =>
    have hy := h y (List.mem_cons_self _ _)
    have hys := ih (fun b hb => h b (List.mem_cons_of_mem _ hb))
    simp [insertSorted, hy, hys]

theorem stableSort_congr (keeps keeps' : α → α → Bool) (l : List α)
    (h : ∀ a ∈ l, ∀ b ∈ l, keeps a b = keeps' a b) :
    stableSort keeps l = stableSort keeps' l := by
  induction l with
  | nil => rfl
  | cons x xs ih =>
    have hxs := ih (fun a ha b hb =>
      h a (List.mem_cons_of_mem _ ha) b (List.mem_cons_of_mem _ hb))
    simp only [stableSort, hxs]
    apply insertSorted_congr
    intro b hb
    exact h x (List.mem_cons_self _ _) b
      (List.mem_cons_of_mem _ ((mem_stableSort keeps' b xs).1 hb))

theorem pairwise_insertSorted (key : α → Int) (x : α) (l : List α)
    (hl : l.Pairwise (fun a b => key b ≤ key a)) :
    (insertSorted (fun a b => decide (key b ≤ key a)) x l).Pairwise
      (fun a b => key b ≤ key a) := by
  induction l with
  | nil => simp [insertSorted]
  | cons y ys ih =>
    rw [List.pairwise_cons] at hl
    by_cases h : key y ≤ key x
    · simp only [insertSorted, h, decide_True, if_true]
      refine List.pairwise_cons.2 ⟨?_, List.pairwise_cons.2 hl⟩
      intro b hb
      rcases List.mem_cons.1 hb with rfl | hb
      · exact h
      · exact le_trans (hl.1 b hb) h
    · simp only [insertSorted, h, decide_False, Bool.false_eq_true, if_false]
      refine List.pairwise_cons.2 ⟨?_, ih hl.2⟩
      intro b hb
      rcases (mem_insertSorted _ x b ys).1 hb with rfl | hb
      · exact le_of_lt (not_le.1 h)
      · exact hl.1 b hb

theorem pairwise_stableSort (key : α → Int) (l : List α) :
    (stableSort (fun a b => decide (key b ≤ key a)) l).Pairwise
      (fun a b => key b ≤ key a) := by
  induction l with
  | nil => simp [stableSort]
  | cons x xs ih => exact pairwise_insertSorted key x _ ih

theorem filter_insertSorted (key : α → Int) (v : Int) (x : α) (l : List α) :
    (insertSorted (fun a b => decide (key b ≤ key a)) x l).filter (fun e => key e = v) =
      (x :: l).filter (fun e => key e = v) := by
  induction l with
  | nil => simp [insertSorted]
  | cons y ys ih =>
    by_cases h : key y ≤ key x
    · simp [insertSorted, h]
    · simp only [insertSorted, h, decide_False, Bool.false_eq_true, if_false]
      rw [List.filter_cons, ih]
      by_cases hx : key x = v
      · have hy : ¬ key y = v := by
          intro hy
          apply h
          rw [hx, hy]
        simp [List.filter_cons, hx, hy]
      · simp [List.filter_cons, hx]

theorem filter_stableSort (key : α → Int) (v : Int) (l : List α) :
    (stableSort (fun a b => decide (key b ≤ key a)) l).filter (fun e => key e = v) =
      l.filter (fun e => key e = v) := by
  induction l with
  | nil => simp [stableSort]
  | cons x xs ih =>
    rw [stableSort, filter_insertSorted, List.filter_cons, ih, List.filter_cons]

theorem length_sliceFromStart (l : List α) (n : Int) (hn : 0 < n) :
    ((sliceFromStart l n).length : Int) ≤ n := by
  have h : ¬ n < 0 := by omega
  simp only [sliceFromStart, h, if_false, List.length_take]
  omega

theorem sliceFromStart_eq_take (l : List α) (n : Int) (hn : 0 < n) :
    sliceFromStart l n = l.take n.toNat := by
  have h : ¬ n < 0 := by omega
  simp [sliceFromStart, h]

theorem mapThrowing_eq_filterMap {β : Type} (f : α → Option β) (l : List α) (ys : List β)
    (h : mapThrowing f l = some ys) : ys = l.filterMap f := by
  induction l generalizing ys with
  | nil => simp [mapThrowing] at h; simp [h]
  | cons x xs ih =>
    cases hx : f x with
    | none => simp [mapThrowing, hx] at h
    | some y =>
      cases hxs : mapThrowing f xs with
      | none => simp [mapThrowing, hx, hxs] at h
      | some zs =>
        simp [mapThrowing, hx, hxs] at h
        subst h
        simp [List.filterMap_cons, hx, ih zs hxs]

theorem perm_insertSorted (keeps : α → α → Bool) (x : α) (l : List α) :
    (insertSorted keeps x l).Perm (x :: l) := by
  induction l with
  | nil => exact List.Perm.refl _
  | cons y ys ih =>
    by_cases h : keeps x y = true
    · simp only [insertSorted, h, if_true]
      exact List.Perm.refl _
    · simp only [insertSorted, h, Bool.false_eq_true, if_false]
      exact ((List.Perm.cons y ih).trans (List.Perm.swap x y ys))

theorem perm_stableSort (keeps : α → α → Bool) (l : List α) :
    (stableSort keeps l).Perm l := by
  induction l with
  | nil => exact List.Perm.refl _
  | cons x xs ih =>
    exact (perm_insertSorted keeps x _).trans (List.Perm.cons x ih)

theorem mapThrowing_eq_none {β : Type} (f : α → Option β) (l : List α)
    (h : mapThrowing f l = none) : ∃ x ∈ l, f x = none := by
  induction l with
  | nil => simp [mapThrowing] at h
  | cons x xs ih =>
    cases hx : f x with
    | none => exact ⟨x, List.mem_cons_self _ _, hx⟩
    | some y =>
      cases hxs : mapThrowing f xs with
      | none =>
        obtain ⟨z, hz, hfz⟩ := ih hxs
        exact ⟨z, List.mem_cons_of_mem _ hz, hfz⟩
      | some zs => simp [mapThrowing, hx, hxs] at h

theorem mapThrowing_of_mem_none {β : Type} (f : α → Option β) (l : List α) (x : α)
    (hx : x ∈ l) (h : f x = none) : mapThrowing f l = none := by
  induction l with
  | nil => simp at hx
  | cons y ys ih =>
    cases hy : f y with
    | none => simp [mapThrowing, hy]
    | some z =>
      rcases List.mem_cons.1 hx with rfl | hx'
      · rw [h] at hy
        cases hy
      · simp [mapThrowing, hy, ih hx']

theorem length_mapThrowing {β : Type} (f : α → Option β) (l : List α) (ys : List β)
    (h : mapThrowing f l = some ys) : ys.length = l.length := by
  induction l generalizing ys with
  | nil => simp [mapThrowing] at h; simp [h]
  | cons x xs ih =>
    cases hx : f x with
    | none => simp [mapThrowing, hx] at h
    | some y =>
      cases hxs : mapThrowing f xs with
      | none => simp [mapThrowing, hx, hxs] at h
      | some zs =>
        simp [mapThrowing, hx, hxs] at h
        subst h
        simp [ih zs hxs]

end Sorting

/-! ## The leaderboard -/

theorem project_fields (kv : String × JVal) (e : LeaderEntry)
    (h : getLeaderboard.project kv = some e) :
    e.userId = kv.1 ∧
    e.totalMessages = (((kv.2.prop "totalMessages").getD .null).or (.num 0)) ∧
    e.artSubmissions = (((kv.2.prop "artSubmissions").getD .null).or (.num 0)) := by
  rcases kv with ⟨id, data⟩
  cases data <;> simp [getLeaderboard.project] at h <;> subst h <;> exact ⟨rfl, rfl, rfl⟩

theorem or_zero_of_count (v : JVal) (m : Int) (h : v.count = some m) :
    v.or (.num 0) = .num m := by
  cases v with
  | null => simp [JVal.count] at h; subst h; rfl
  | num k =>
    simp [JVal.count] at h; subst h
    by_cases hk : k = 0
    · simp [JVal.or, JVal.truthy, hk]
    · simp [JVal.or, JVal.truthy, hk]
  | bool b => simp [JVal.count] at h
  | str t => simp [JVal.count] at h
  | obj fs => simp [JVal.count] at h

theorem keeps_eq_of_num (a b : LeaderEntry) (ma mb : Int)
    (ha : a.totalMessages = .num ma) (hb : b.totalMessages = .num mb) :
    getLeaderboard.keeps a b = decide (b.total ≤ a.total) := by
  simp [getLeaderboard.keeps, JVal.sub, JVal.toNumber, LeaderEntry.total, ha, hb]

theorem board_of_projected (projected : List LeaderEntry) (n : Int) (hn : 0 < n)
    (htyped : ∀ e ∈ projected, ∃ m : Int, e.totalMessages = .num m) :
    ((sliceFromStart (stableSort getLeaderboard.keeps projected) n).length : Int) ≤ n ∧
    (sliceFromStart (stableSort getLeaderboard.keeps projected) n).Pairwise
      (fun a b => b.total ≤ a.total) ∧
    (∀ e ∈ sliceFromStart (stableSort getLeaderboard.keeps projected) n, e ∈ projected) ∧
    (∀ v : Int,
      (sliceFromStart (stableSort getLeaderboard.keeps projected) n).filter
          (fun e => e.total = v) <+:
        projected.filter (fun e => e.total = v)) := by
  have hsort : stableSort getLeaderboard.keeps projected =
      stableSort (fun a b => decide (b.total ≤ a.total)) projected := by
    apply stableSort_congr
    intro a ha b hb
    obtain ⟨ma, hma⟩ := htyped a ha
    obtain ⟨mb, hmb⟩ := htyped b hb
    exact keeps_eq_of_num a b ma mb hma hmb
  refine ⟨length_sliceFromStart _ n hn, ?_, ?_, ?_⟩
  · rw [sliceFromStart_eq_take _ n hn, hsort]
    exact (pairwise_stableSort LeaderEntry.total projected).sublist (List.take_sublist _ _)
  · intro e he
    rw [sliceFromStart_eq_take _ n hn] at he
    exact (mem_stableSort _ e projected).1 (List.mem_of_mem_take he)
  · intro v
    rw [sliceFromStart_eq_take _ n hn, hsort]
    have h := (List.take_prefix n.toNat
      (stableSort (fun a b => decide (b.total ≤ a.total)) projected)).filter
        (fun e => decide (e.total = v))
    rwa [filter_stableSort LeaderEntry.total v projected] at h

theorem exec_getLeaderboard (limit : Int) (w : World) :
    (getLeaderboard limit).exec w =
      match request.exec w with
      | (.error _, w') => (.ok [], w')
      | (.ok _, w') =>
        (.ok (if (w'.db.getPath ["discord", "users"]).truthy then
            match mapThrowing getLeaderboard.project
                (w'.db.getPath ["discord", "users"]).entries with
            | none => []
            | some projected =>
              sliceFromStart (stableSort getLeaderboard.keeps projected) limit
          else []), w') := by
  unfold getLeaderboard
  rw [exec_tryCatch, exec_bind, exec_get]
  rcases request.exec w with ⟨r, w'⟩
  cases r with
  | error e => rfl
  | ok u =>
    simp only []
    cases ht : (w'.db.getPath ["discord", "users"]).truthy with
    | false => simp [exec_pure]
    | true =>
      cases hm : mapThrowing getLeaderboard.project (w'.db.getPath ["discord", "users"]).entries with
      | none => simp [hm, exec_throw, exec_pure]
      | some projected => simp [hm, exec_pure]

theorem prop_getD_eq_lookup (v : JVal) (k : String) :
    (v.prop k).getD .null = JVal.lookup k v.fields := by
  cases v <;> rfl

theorem db_request (w : World) : (request.exec w).2.db = w.db := by
  rw [exec_request]
  rcases w with ⟨db, faults, mc⟩
  rcases faults with _ | ⟨f, rest⟩
  · rfl
  · cases f <;> rfl

theorem request_messageCounter (w : World) (mc : Nat) :
    (request.exec { w with messageCounter := mc }).1 = (request.exec w).1 ∧
    (request.exec { w with messageCounter := mc }).2.db = (request.exec w).2.db := by
  simp only [exec_request]
  rcases w with ⟨db, faults, mc'⟩
  rcases faults with _ | ⟨f, rest⟩
  · exact ⟨rfl, rfl⟩
  · cases f <;> exact ⟨rfl, rfl⟩

theorem getLeaderboard_upper (n : Int) (hn : 0 < n) (w : World)
    (htyped : ∀ kv ∈ (w.db.getPath ["discord", "users"]).entries,
      ∃ m : Int, (JVal.lookup "totalMessages" kv.2.fields).count = some m) :
    ∃ board : List LeaderEntry,
      ((getLeaderboard n).exec w).1 = .ok board ∧
      (board.length : Int) ≤ n ∧
      board.Pairwise (fun a b => b.total ≤ a.total) ∧
      (∀ e ∈ board, ∃ kv ∈ (w.db.getPath ["discord", "users"]).entries,
        getLeaderboard.project kv = some e ∧ e.userId = kv.1 ∧
        e.totalMessages = (JVal.lookup "totalMessages" kv.2.fields).or (.num 0) ∧
        e.artSubmissions = (JVal.lookup "artSubmissions" kv.2.fields).or (.num 0) ∧
        (JVal.lookup "totalMessages" kv.2.fields).count = some e.total) ∧
      (∀ v : Int, board.filter (fun e => e.total = v) <+:
        ((w.db.getPath ["discord", "users"]).entries.filterMap getLeaderboard.project).filter
          (fun e => e.total = v)) ∧
      (∀ mc : Nat, ((getLeaderboard n).exec { w with messageCounter := mc }).1 = .ok board) := by
  have hproj : ∀ kv ∈ (w.db.getPath ["discord", "users"]).entries, ∀ e,
      getLeaderboard.project kv = some e →
        e.userId = kv.1 ∧
        e.totalMessages = (JVal.lookup "totalMessages" kv.2.fields).or (.num 0) ∧
        e.artSubmissions = (JVal.lookup "artSubmissions" kv.2.fields).or (.num 0) ∧
        (JVal.lookup "totalMessages" kv.2.fields).count = some e.total ∧
        e.totalMessages = .num e.total := by
    intro kv hkv e he
    obtain ⟨h1, h2, h3⟩ := project_fields kv e he
    rw [prop_getD_eq_lookup] at h2 h3
    obtain ⟨m, hm⟩ := htyped kv hkv
    have h4 := or_zero_of_count _ m hm
    have h5 : e.total = m := by simp [LeaderEntry.total, h2, h4, JVal.toNumber]
    exact ⟨h1, h2, h3, by rw [h5]; exact hm, by rw [h5, h2, h4]⟩
  have hmc : ∀ mc : Nat, ((getLeaderboard n).exec { w with messageCounter := mc }).1 =
      ((getLeaderboard n).exec w).1 := by
    intro mc
    rw [exec_getLeaderboard, exec_getLeaderboard]
    obtain ⟨h1, h2⟩ := request_messageCounter w mc
    rcases hr : request.exec w with ⟨r, w'⟩
    rcases hr' : request.exec { w with messageCounter := mc } with ⟨r', w''⟩
    rw [hr, hr'] at h1 h2
    simp only at h1 h2
    subst h1
    cases r' with
    | error e => rfl
    | ok u => simp only [h2]
  have hdb := db_request w
  rcases hr : request.exec w with ⟨r, w'⟩
  rw [hr] at hdb
  simp only at hdb
  have hnil : ∀ board : List LeaderEntry, board = [] →
      ((getLeaderboard n).exec w).1 = .ok board →
      ((getLeaderboard n).exec w).1 = .ok board ∧
      (board.length : Int) ≤ n ∧
      board.Pairwise (fun a b => b.total ≤ a.total) ∧
      (∀ e ∈ board, ∃ kv ∈ (w.db.getPath ["discord", "users"]).entries,
        getLeaderboard.project kv = some e ∧ e.userId = kv.1 ∧
        e.totalMessages = (JVal.lookup "totalMessages" kv.2.fields).or (.num 0) ∧
        e.artSubmissions = (JVal.lookup "artSubmissions" kv.2.fields).or (.num 0) ∧
        (JVal.lookup "totalMessages" kv.2.fields).count = some e.total) ∧
      (∀ v : Int, board.filter (fun e => e.total = v) <+:
        ((w.db.getPath ["discord", "users"]).entries.filterMap getLeaderboard.project).filter
          (fun e => e.total = v)) ∧
      (∀ mc : Nat, ((getLeaderboard n).exec { w with messageCounter := mc }).1 = .ok board) := by
    intro board hb hv
    subst hb
    refine ⟨hv, by simp; omega, List.Pairwise.nil, by simp, ?_, fun mc => (hmc mc).trans hv⟩
    intro v
    simp
  cases r with
  | error e =>
    have hval : ((getLeaderboard n).exec w).1 = .ok [] := by
      rw [exec_getLeaderboard, hr]
    exact ⟨[], hnil [] rfl hval⟩
  | ok u =>
    have hval : ((getLeaderboard n).exec w).1 = .ok
        (if (w.db.getPath ["discord", "users"]).truthy then
          match mapThrowing getLeaderboard.project
              (w.db.getPath ["discord", "users"]).entries with
          | none => []
          | some projected => sliceFromStart (stableSort getLeaderboard.keeps projected) n
        else []) := by
      rw [exec_getLeaderboard, hr]
      simp only [hdb]
    cases ht : (w.db.getPath ["discord", "users"]).truthy with
    | false =>
      rw [ht] at hval
      exact ⟨[], hnil [] rfl hval⟩
    | true =>
      rw [ht] at hval
      simp only [if_true] at hval
      cases hm : mapThrowing getLeaderboard.project
          (w.db.getPath ["discord", "users"]).entries with
      | none =>
        rw [hm] at hval
        exact ⟨[], hnil [] rfl hval⟩
      | some projected =>
        rw [hm] at hval
        simp only at hval
        have hfm := mapThrowing_eq_filterMap _ _ _ hm
        have hmem : ∀ e ∈ projected, ∃ kv ∈ (w.db.getPath ["discord", "users"]).entries,
            getLeaderboard.project kv = some e := by
          intro e he
          rw [hfm] at he
          exact List.mem_filterMap.1 he
        have hnum : ∀ e ∈ projected, ∃ m : Int, e.totalMessages = .num m := by
          intro e he
          obtain ⟨kv, hkv, hp⟩ := hmem e he
          exact ⟨e.total, (hproj kv hkv e hp).2.2.2.2⟩
        obtain ⟨b1, b2, b3, b4⟩ := board_of_projected projected n hn hnum
        refine ⟨_, hval, b1, b2, ?_, ?_, fun mc => (hmc mc).trans hval⟩
        · intro e he
          obtain ⟨kv, hkv, hp⟩ := hmem e (b3 e he)
          obtain ⟨p1, p2, p3, p4, _⟩ := hproj kv hkv e hp
          exact ⟨kv, hkv, hp, p1, p2, p3, p4⟩
        · intro v
          rw [← hfm]
          exact b4 v

theorem entries_of_not_truthy (v : JVal) (h : v.truthy = false) : v.entries = [] := by
  cases v with
  | null => rfl
  | bool b => rfl
  | num n => rfl
  | str t =>
    have ht : t = "" := by simpa [JVal.truthy] using h
    subst ht
    rfl
  | obj fs => simp [JVal.truthy] at h

theorem project_eq_none (kv : String × JVal) (h : getLeaderboard.project kv = none) :
    kv.2 = .null := by
  rcases kv with ⟨id, data⟩
  cases data <;> simp [getLeaderboard.project] at h ⊢

theorem project_null (kv : String × JVal) (h : kv.2 = .null) :
    getLeaderboard.project kv = none := by
  rcases kv with ⟨id, data⟩
  simp only at h
  subst h
  rfl

theorem stableSort_keeps_eq (projected : List LeaderEntry)
    (htyped : ∀ e ∈ projected, ∃ m : Int, e.totalMessages = .num m) :
    stableSort getLeaderboard.keeps projected =
      stableSort (fun a b => decide (b.total ≤ a.total)) projected := by
  apply stableSort_congr
  intro a ha b hb
  obtain ⟨ma, hma⟩ := htyped a ha
  obtain ⟨mb, hmb⟩ := htyped b hb
  exact keeps_eq_of_num a b ma mb hma hmb

theorem getLeaderboard_failed (n : Int) (w : World)
    (h : w.faults.head? = some true ∨
      ∃ kv ∈ (w.db.getPath ["discord", "users"]).entries, kv.2 = .null) :
    ((getLeaderboard n).exec w).1 = .ok [] := by
  rw [exec_getLeaderboard]
  by_cases hhead : w.faults.head? = some true
  · rw [exec_request_failed w hhead]
  · rcases h with h | ⟨kv, hkv, hnull⟩
    · exact absurd h hhead
    · rw [exec_request_ok w hhead]
      simp only []
      rw [mapThrowing_of_mem_none _ _ kv hkv (project_null kv hnull)]
      simp only [ite_self]

theorem getLeaderboard_exact (n : Int) (hn : 0 < n) (w : World)
    (htyped : ∀ kv ∈ (w.db.getPath ["discord", "users"]).entries,
      ∃ m : Int, (JVal.lookup "totalMessages" kv.2.fields).count = some m)
    (hhead : w.faults.head? ≠ some true)
    (hrec : ∀ kv ∈ (w.db.getPath ["discord", "users"]).entries, kv.2 ≠ .null) :
    ∃ full : List LeaderEntry,
      full.Perm ((w.db.getPath ["discord", "users"]).entries.filterMap
        getLeaderboard.project) ∧
      full.length = (w.db.getPath ["discord", "users"]).entries.length ∧
      full.Pairwise (fun a b => b.total ≤ a.total) ∧
      (∀ v : Int, full.filter (fun e => e.total = v) =
        ((w.db.getPath ["discord", "users"]).entries.filterMap
          getLeaderboard.project).filter (fun e => e.total = v)) ∧
      ((getLeaderboard n).exec w).1 = .ok (full.take n.toNat) := by
  rw [exec_getLeaderboard, exec_request_ok w hhead]
  simp only []
  cases hm : mapThrowing getLeaderboard.project
      (w.db.getPath ["discord", "users"]).entries with
  | none =>
    obtain ⟨kv, hkv, hnone⟩ := mapThrowing_eq_none _ _ hm
    exact absurd (project_eq_none kv hnone) (hrec kv hkv)
  | some projected =>
    have hfm := mapThrowing_eq_filterMap _ _ _ hm
    have hlen := length_mapThrowing _ _ _ hm
    have hnum : ∀ e ∈ projected, ∃ m : Int, e.totalMessages = .num m := by
      intro e he
      rw [hfm] at he
      obtain ⟨kv, hkv, hp⟩ := List.mem_filterMap.1 he
      obtain ⟨_, h2, _⟩ := project_fields kv e hp
      rw [prop_getD_eq_lookup] at h2
      obtain ⟨m, hm'⟩ := htyped kv hkv
      exact ⟨m, by rw [h2, or_zero_of_count _ m hm']⟩
    have hsort := stableSort_keeps_eq projected hnum
    refine ⟨stableSort (fun a b => decide (b.total ≤ a.total)) projected, ?_, ?_, ?_, ?_, ?_⟩
    · rw [← hfm]
      exact perm_stableSort _ projected
    · rw [(perm_stableSort _ projected).length_eq, hlen]
    · exact pairwise_stableSort LeaderEntry.total projected
    · intro v
      rw [← hfm]
      exact filter_stableSort LeaderEntry.total v projected
    · cases ht : (w.db.getPath ["discord", "users"]).truthy with
      | true =>
        simp only [if_true, hsort, sliceFromStart_eq_take _ n hn]
      | false =>
        have hent := entries_of_not_truthy _ ht
        rw [hent] at hm
        simp only [mapThrowing, Option.some.injEq] at hm
        subst hm
        simp [stableSort]

/-- C3: for a positive `n`, `getLeaderboard(n)` returns normally a list of at
most `n` entries in non-increasing order of `totalMessages`; entries with equal
`totalMessages` appear in the order in which the store enumerates the users;
every entry is the projection of one stored user, an absent `totalMessages` or
`artSubmissions` read as 0; and the list depends on the store state and the
failure pattern only.  When the read succeeds the list is exactly the first
`n` entries of the projections of all stored users arranged in non-increasing
order of `totalMessages` with ties in store order; when the read fails, or a
stored record is `null`, it is empty.  The stored `totalMessages` are numbers
or absent. -/
theorem getLeaderboard_sorted_stable (n : Int) (hn : 0 < n) (w : World)
    (htyped : ∀ kv ∈ (w.db.getPath ["discord", "users"]).entries,
      ∃ m : Int, (JVal.lookup "totalMessages" kv.2.fields).count = some m) :
    ∃ board : List LeaderEntry,
      ((getLeaderboard n).exec w).1 = .ok board ∧
      (board.length : Int) ≤ n ∧
      board.Pairwise (fun a b => b.total ≤ a.total) ∧
      (∀ e ∈ board, ∃ kv ∈ (w.db.getPath ["discord", "users"]).entries,
        getLeaderboard.project kv = some e ∧ e.userId = kv.1 ∧
        e.totalMessages = (JVal.lookup "totalMessages" kv.2.fields).or (.num 0) ∧
        e.artSubmissions = (JVal.lookup "artSubmissions" kv.2.fields).or (.num 0) ∧
        (JVal.lookup "totalMessages" kv.2.fields).count = some e.total) ∧
      (∀ v : Int, board.filter (fun e => e.total = v) <+:
        ((w.db.getPath ["discord", "users"]).entries.filterMap getLeaderboard.project).filter
          (fun e => e.total = v)) ∧
      (∀ mc : Nat, ((getLeaderboard n).exec { w with messageCounter := mc }).1 = .ok board) ∧
      (w.faults.head? ≠ some true →
        (∀ kv ∈ (w.db.getPath ["discord", "users"]).entries, kv.2 ≠ .null) →
        ∃ full : List LeaderEntry,
          full.Perm ((w.db.getPath ["discord", "users"]).entries.filterMap
            getLeaderboard.project) ∧
          full.length = (w.db.getPath ["discord", "users"]).entries.length ∧
          full.Pairwise (fun a b => b.total ≤ a.total) ∧
          (∀ v : Int, full.filter (fun e => e.total = v) =
            ((w.db.getPath ["discord", "users"]).entries.filterMap
              getLeaderboard.project).filter (fun e => e.total = v)) ∧
          board = full.take n.toNat ∧
          board.length = min n.toNat (w.db.getPath ["discord", "users"]).entries.length) ∧
      (w.faults.head? = some true ∨
          (∃ kv ∈ (w.db.getPath ["discord", "users"]).entries, kv.2 = .null) →
        board = []) := by
  obtain ⟨board, h1, h2, h3, h4, h5, h6⟩ := getLeaderboard_upper n hn w htyped
  refine ⟨board, h1, h2, h3, h4, h5, h6, ?_, ?_⟩
  · intro hhead hrec
    obtain ⟨full, f1, f2, f3, f4, f5⟩ := getLeaderboard_exact n hn w htyped hhead hrec
    have hb : board = full.take n.toNat := by
      rw [h1] at f5
      exact Except.ok.inj f5
    refine ⟨full, f1, f2, f3, f4, hb, ?_⟩
    rw [hb, List.length_take, f2]
  · intro hfail
    have hb := getLeaderboard_failed n w hfail
    rw [h1] at hb
    exact Except.ok.inj hb

/-- C3 at a concrete input: four stored users, two of them tied and one
without `totalMessages`, and a limit of 2; the board lists the two tied users
in store order. -/
theorem getLeaderboard_sorted_stable_witness :
    (0 : Int) < 2 ∧
    (∃ board : List LeaderEntry,
      ((getLeaderboard 2).exec (World.reliable
        (.obj [("discord", .obj [("users", .obj
          [("11", .obj [("totalMessages", .num 3)]),
           ("12", .obj [("totalMessages", .num 5)]),
           ("13", .obj [("username", .str "cy"), ("totalMessages", .num 5)]),
           ("14", .obj [("username", .str "di")])])])]) 0)).1 = .ok board ∧
      (board.length : Int) ≤ 2 ∧
      board.Pairwise (fun a b => b.total ≤ a.total)) ∧
    (((getLeaderboard 2).exec (World.reliable
        (.obj [("discord", .obj [("users", .obj
          [("11", .obj [("totalMessages", .num 3)]),
           ("12", .obj [("totalMessages", .num 5)]),
           ("13", .obj [("username", .str "cy"), ("totalMessages", .num 5)]),
           ("14", .obj [("username", .str "di")])])])]) 0)).1.toOption.map
      (fun board => board.map (fun e => e.userId))) = some ["12", "13"] :=
  ⟨by decide,
    (getLeaderboard_sorted_stable 2 (by decide) (World.reliable
        (.obj [("discord", .obj [("users", .obj
          [("11", .obj [("totalMessages", .num 3)]),
           ("12", .obj [("totalMessages", .num 5)]),
           ("13", .obj [("username", .str "cy"), ("totalMessages", .num 5)]),
           ("14", .obj [("username", .str "di")])])])]) 0)
      (by
        intro kv hkv
        simp [World.reliable, JVal.getPath, JVal.lookup, JVal.fields, JVal.entries] at hkv
        rcases hkv with rfl | rfl | rfl | rfl <;> exact ⟨_, rfl⟩)).imp
      (fun _ h => ⟨h.1, h.2.1, h.2.2.1⟩),
    rfl⟩

/-! ## Event classification -/

theorem startsWith_iff (hay needle : List Char) :
    startsWith hay needle = true ↔ List.IsPrefix needle hay := by
  induction needle generalizing hay with
  | nil => cases hay <;> simp [startsWith]
  | cons n needle ih =>
    cases hay with
    | nil => simp [startsWith]
    | cons h hay =>
      simp only [startsWith, Bool.and_eq_true, beq_iff_eq, ih, List.cons_prefix_cons]
      constructor
      · rintro ⟨rfl, h2⟩; exact ⟨rfl, h2⟩
      · rintro ⟨rfl, h2⟩; exact ⟨rfl, h2⟩

theorem includesChars_iff (hay needle : List Char) :
    includesChars hay needle = true ↔ List.IsInfix needle hay := by
  induction hay with
  | nil =>
    simp only [includesChars, startsWith_iff, List.prefix_nil, List.infix_nil]
  | cons h hay ih =>
    simp only [includesChars, Bool.or_eq_true, startsWith_iff, ih, List.infix_cons_iff]

theorem includes_iff (hay needle : String) :
    includes hay needle = true ↔ List.IsInfix needle.data hay.data :=
  includesChars_iff _ _

theorem find_isSome_iff_matchesRole (roles : List String) (roleName : String) :
    (roles.find? (fun r => includes (toLowerCase r) (toLowerCase roleName))).isSome = true ↔
      matchesRole roles roleName := by
  simp only [List.find?_isSome, includes_iff, matchesRole]

theorem loop_eq_some_iff (roles cfg : List String) (R : String) :
    getUserMagRole.loop roles cfg = some R ↔
      ∃ before after, cfg = before ++ R :: after ∧ matchesRole roles R ∧
        ∀ R' ∈ before, ¬ matchesRole roles R' := by
  induction cfg with
  | nil => simp [getUserMagRole.loop]
  | cons c cs ih =>
    have hc := find_isSome_iff_matchesRole roles c
    cases hf : roles.find? (fun r => includes (toLowerCase r) (toLowerCase c)) with
    | some r =>
      rw [hf] at hc
      have hm : matchesRole roles c := hc.1 rfl
      simp only [getUserMagRole.loop, hf, Option.some.injEq]
      constructor
      · rintro rfl
        exact ⟨[], cs, rfl, hm, by simp⟩
      · rintro ⟨before, after, heq, _, hbefore⟩
        cases before with
        | nil => simpa using (List.cons.inj heq).1
        | cons b bs =>
          have hb : c = b := (List.cons.inj heq).1
          exact absurd (hb ▸ hm) (hbefore b (List.mem_cons_self _ _))
    | none =>
      rw [hf] at hc
      have hm : ¬ matchesRole roles c := fun h => by simpa using hc.2 h
      simp only [getUserMagRole.loop, hf, ih]
      constructor
      · rintro ⟨before, after, heq, hR, hbefore⟩
        refine ⟨c :: before, after, by simp [heq], hR, ?_⟩
        intro R' hR'
        rcases List.mem_cons.1 hR' with rfl | h
        · exact hm
        · exact hbefore R' h
      · rintro ⟨before, after, heq, hR, hbefore⟩
        cases before with
        | nil =>
          have hcR : c = R := (List.cons.inj heq).1
          exact absurd (hcR ▸ hR) hm
        | cons b bs =>
          refine ⟨bs, after, (List.cons.inj heq).2, hR, ?_⟩
          intro R' hR'
          exact hbefore R' (List.mem_cons_of_mem _ hR')

theorem loop_eq_none_iff (roles cfg : List String) :
    getUserMagRole.loop roles cfg = none ↔ ∀ R ∈ cfg, ¬ matchesRole roles R := by
  induction cfg with
  | nil => simp [getUserMagRole.loop]
  | cons c cs ih =>
    have hc := find_isSome_iff_matchesRole roles c
    cases hf : roles.find? (fun r => includes (toLowerCase r) (toLowerCase c)) with
    | some r =>
      rw [hf] at hc
      have hm : matchesRole roles c := hc.1 rfl
      simp only [getUserMagRole.loop, hf]
      constructor
      · intro h; cases h
      · intro h; exact absurd hm (h c (List.mem_cons_self _ _))
    | none =>
      rw [hf] at hc
      have hm : ¬ matchesRole roles c := fun h => by simpa using hc.2 h
      simp only [getUserMagRole.loop, hf, ih, List.forall_mem_cons]
      exact ⟨fun h => ⟨hm, h⟩, fun h => h.2⟩

/-- C4: `getUserMagRole` returns the first name of `CONFIG.MAG_ROLES` whose
lower-cased text occurs in the lower-cased name of one of the member's
assigned roles, and returns `null` exactly when no configured name matches,
in particular for a member without roles and for a missing member; the
assigned role "mag 3 star" gives "Mag 3". -/
theorem getUserMagRole_first_match :
    (∀ (m : GuildMember) (roles : List String) (R : String), m.roles = some roles →
      (getUserMagRole (some m) = some R ↔
        ∃ before after, CONFIG.MAG_ROLES = before ++ R :: after ∧ matchesRole roles R ∧
          ∀ R' ∈ before, ¬ matchesRole roles R')) ∧
    (∀ (m : GuildMember) (roles : List String), m.roles = some roles →
      (getUserMagRole (some m) = none ↔ ∀ R ∈ CONFIG.MAG_ROLES, ¬ matchesRole roles R)) ∧
    (∀ m : GuildMember, m.roles = some [] → getUserMagRole (some m) = none) ∧
    (∀ m : GuildMember, m.roles = none → getUserMagRole (some m) = none) ∧
    getUserMagRole none = none ∧
    (∀ m : GuildMember, m.roles = some ["mag 3 star"] → getUserMagRole (some m) = some "Mag 3") := by
  refine ⟨?_, ?_, ?_, ?_, rfl, ?_⟩
  · intro m roles R hr
    simp only [getUserMagRole, hr]
    exact loop_eq_some_iff roles CONFIG.MAG_ROLES R
  · intro m roles hr
    simp only [getUserMagRole, hr]
    exact loop_eq_none_iff roles CONFIG.MAG_ROLES
  · intro m hr
    simp only [getUserMagRole, hr]
    rfl
  · intro m hr
    simp only [getUserMagRole, hr]
  · intro m hr
    simp only [getUserMagRole, hr]
    rfl

/-- C4 at a concrete input: a member holding the roles "Member" and
"MAG 2 veteran". -/
theorem getUserMagRole_first_match_witness :
    getUserMagRole (some ⟨⟨"42", "ann", false⟩, "Ann", some ["Member", "MAG 2 veteran"], none⟩) =
        some "Mag 2" ↔
      ∃ before after, CONFIG.MAG_ROLES = before ++ "Mag 2" :: after ∧
        matchesRole ["Member", "MAG 2 veteran"] "Mag 2" ∧
        ∀ R' ∈ before, ¬ matchesRole ["Member", "MAG 2 veteran"] R' :=
  getUserMagRole_first_match.1 ⟨⟨"42", "ann", false⟩, "Ann", some ["Member", "MAG 2 veteran"], none⟩
    ["Member", "MAG 2 veteran"] "Mag 2" rfl

theorem toLowerCase_art_keyword (kw : String) (h : kw ∈ CONFIG.ART_CHANNELS) :
    toLowerCase kw = kw := by
  simp only [CONFIG.ART_CHANNELS, List.mem_cons, List.mem_singleton, List.not_mem_nil,
    or_false] at h
  rcases h with rfl | rfl | rfl | rfl | rfl <;> decide

theorem isArtChannel_iff (channelName : String) :
    isArtChannel channelName = true ↔
      ∃ kw ∈ CONFIG.ART_CHANNELS, List.IsInfix kw.data (toLowerCase channelName).data := by
  simp only [isArtChannel, List.any_eq_true, includes_iff]
  constructor
  · rintro ⟨kw, hkw, h⟩
    rw [toLowerCase_art_keyword kw hkw] at h
    exact ⟨kw, hkw, h⟩
  · rintro ⟨kw, hkw, h⟩
    refine ⟨kw, hkw, ?_⟩
    rw [toLowerCase_art_keyword kw hkw]
    exact h

/-- C5: the art-submission flag of a message is true exactly when the
lower-cased channel name contains one of the configured art keywords and the
message has at least one attachment; a message without attachments is never an
art submission; in the channel "fan-art-discussion" a text-only post gives
false and a post with an attachment gives true. -/
theorem isArtSubmission_iff :
    (∀ message : Message, isArtSubmission message = true ↔
      (∃ kw ∈ CONFIG.ART_CHANNELS,
          List.IsInfix kw.data (toLowerCase message.channelName).data) ∧
        0 < message.attachments) ∧
    (∀ message : Message, message.attachments = 0 → isArtSubmission message = false) ∧
    (∀ message : Message, message.channelName = "fan-art-discussion" →
      (message.attachments = 0 → isArtSubmission message = false) ∧
      (0 < message.attachments → isArtSubmission message = true)) := by
  have hiff : ∀ message : Message, isArtSubmission message = true ↔
      (∃ kw ∈ CONFIG.ART_CHANNELS,
          List.IsInfix kw.data (toLowerCase message.channelName).data) ∧
        0 < message.attachments := by
    intro message
    simp only [isArtSubmission, Bool.and_eq_true, isArtChannel_iff, decide_eq_true_eq,
      gt_iff_lt]
  have hzero : ∀ message : Message, message.attachments = 0 →
      isArtSubmission message = false := by
    intro message h0
    simp [isArtSubmission, h0]
  refine ⟨hiff, hzero, ?_⟩
  intro message hname
  refine ⟨hzero message, ?_⟩
  intro hpos
  have hchan : isArtChannel "fan-art-discussion" = true := by decide
  simp [isArtSubmission, hname, hchan, hpos]

/-- C5 at a concrete input: a post with one attachment in the channel
"fan-art-discussion". -/
theorem isArtSubmission_iff_witness :
    isArtSubmission ⟨⟨"42", "ann", false⟩, true, none, "8", "fan-art-discussion", 1⟩ = true :=
  (isArtSubmission_iff.2.2 ⟨⟨"42", "ann", false⟩, true, none, "8", "fan-art-discussion", 1⟩
    rfl).2 (by decide)

/-! ## Monotonic counters -/

theorem counterAt_spared (c : CounterPath) (w : Write) (db : JVal) (v : Int)
    (hw : w.spares c) (hv : counterAt db c = some v) :
    ∃ v', counterAt (w.apply db) c = some v' ∧ v ≤ v' := by
  cases w with
  | update path data =>
    refine ⟨v, ?_, le_refl v⟩
    rw [counterAt, getPath_apply_update_diverge db c.path path data hw]
    exact hv
  | increment q a =>
    obtain ⟨ha, hq⟩ := hw
    rcases hq with rfl | hq
    · refine ⟨v + a, ?_, by omega⟩
      rw [counterAt, getPath_apply_increment_same, JVal.or_addNum_of_count _ _ _ hv]
      rfl
    · refine ⟨v, ?_, le_refl v⟩
      rw [counterAt, getPath_apply_increment_diverge db c.path q a hq]
      exact hv

theorem counterAt_applyWrites (c : CounterPath) (ws : List Write) (db : JVal) (v : Int)
    (hws : ∀ w ∈ ws, w.spares c) (hv : counterAt db c = some v) :
    ∃ v', counterAt (applyWrites ws db) c = some v' ∧ v ≤ v' := by
  induction ws generalizing db v with
  | nil => exact ⟨v, hv, le_refl v⟩
  | cons w ws ih =>
    obtain ⟨v1, h1, hle1⟩ := counterAt_spared c w db v (hws w (List.mem_cons_self _ _)) hv
    obtain ⟨v2, h2, hle2⟩ := ih (w.apply db) v1
      (fun w' hw' => hws w' (List.mem_cons_of_mem _ hw')) h1
    exact ⟨v2, h2, le_trans hle1 hle2⟩

theorem diverge_counter_paths (c c' : CounterPath) (h : c ≠ c') :
    diverge c.path c'.path = true := by
  cases c <;> cases c' <;> simp [CounterPath.path, diverge] at h ⊢ <;> tauto

theorem spares_increment_counter (c c' : CounterPath) :
    (Write.increment c'.path 1).spares c := by
  refine ⟨by decide, ?_⟩
  by_cases h : c = c'
  · exact Or.inl (by rw [h])
  · exact Or.inr (diverge_counter_paths c c' h)

theorem spares_update_user (c : CounterPath) (userId : String) (data : List (String × JVal))
    (h : ∀ kv ∈ data, kv.1 ≠ "totalMessages" ∧ kv.1 ≠ "artSubmissions" ∧
      kv.1 ≠ "channels" ∧ kv.1 ≠ "daily") :
    (Write.update ["discord", "users", userId] data).spares c := by
  intro kv hkv
  obtain ⟨h1, h2, h3, h4⟩ := h kv hkv
  cases c <;> simp [CounterPath.path, diverge, Ne.symm h1, Ne.symm h2, Ne.symm h3, Ne.symm h4]

theorem spares_update_channel (c : CounterPath) (channelId channelName : String) :
    (Write.update ["discord", "channels", channelId] [("name", .str channelName)]).spares c := by
  intro kv hkv
  simp only [List.mem_singleton] at hkv
  subst hkv
  cases c <;> simp [CounterPath.path, diverge]

theorem saveUserMessage_writes_spare (c : CounterPath) (now : Int) (today : String)
    (userId username displayName channelId channelName : String) (isArt : Bool) :
    ∀ w ∈ saveUserMessage.writes now today userId username displayName channelId channelName
      isArt, w.spares c := by
  intro w hw
  simp only [saveUserMessage.writes, List.mem_append, List.mem_cons, List.mem_singleton,
    List.not_mem_nil, or_false] at hw
  rcases hw with ((rfl | rfl | rfl | rfl | rfl | rfl) | hart) | rfl | rfl
  · apply spares_update_user
    intro kv hkv
    simp only [List.mem_cons, List.mem_singleton, List.not_mem_nil, or_false] at hkv
    rcases hkv with rfl | rfl | rfl <;> simp
  · exact spares_increment_counter c (.userTotalMessages userId)
  · exact spares_increment_counter c (.userChannel userId channelId)
  · exact spares_increment_counter c (.userDaily userId today)
  · exact spares_increment_counter c (.channelTotalMessages channelId)
  · exact spares_update_channel c channelId channelName
  · cases isArt
    · simp at hart
    · simp only [if_true, List.mem_cons, List.mem_singleton, List.not_mem_nil,
        or_false] at hart
      rcases hart with rfl | rfl
      · exact spares_increment_counter c (.userArtSubmissions userId)
      · exact spares_increment_counter c .statsTotalArt
  · exact spares_increment_counter c .statsTotalMessages
  · exact spares_increment_counter c (.statsDaily today)

theorem saveUserRole_eq_issueAll (now : Int) (userId username roleName : String) :
    saveUserRole now userId username roleName =
      tryCatch (issueAll (saveUserRole.writes now userId username roleName))
        (fun _ => pure ()) := by
  simp [saveUserRole, saveUserRole.writes, issueAll, Write.issue, bind_assoc]

theorem guildMemberAdd_eq_issueAll (member : GuildMember) :
    guildMemberAdd member = issueAll (guildMemberAdd.writes member) := by
  simp [guildMemberAdd, guildMemberAdd.writes, issueAll, Write.issue, bind_assoc]

theorem syncLoop_eq_issueAll (members : List GuildMember) :
    syncAllMemberRoles.loop members = issueAll (syncAllMemberRoles.writes members) := by
  induction members with
  | nil => rfl
  | cons m rest ih =>
    by_cases hb : m.user.bot = true
    · simp [syncAllMemberRoles.loop, syncAllMemberRoles.writes, hb, ih]
    · cases hr : getUserMagRole (some m) with
      | none => simp [syncAllMemberRoles.loop, syncAllMemberRoles.writes, hb, hr, ih]
      | some role =>
        simp [syncAllMemberRoles.loop, syncAllMemberRoles.writes, hb, hr, ih, issueAll,
          Write.issue]

theorem exec_operation_reliable (op : Operation) (db : JVal) (mc : Nat) :
    op.run.exec (World.reliable db mc) =
      (.ok (), World.reliable (applyWrites op.writes db) mc) := by
  cases op with
  | recordMessage now today userId username displayName channelId channelName isArt =>
    exact exec_saveUserMessage_reliable _ _ _ _ _ _ _ _ _ _
  | recordRole now userId username roleName =>
    simp only [Operation.run, Operation.writes]
    rw [saveUserRole_eq_issueAll]
    exact (exec_guarded_issueAll _ (World.reliable db mc)).2.2.2 rfl
  | recordJoin member =>
    simp only [Operation.run, Operation.writes]
    rw [guildMemberAdd_eq_issueAll]
    exact (exec_issueAll _ (World.reliable db mc)).2.2 rfl
  | syncAllMemberRoles guild =>
    simp only [Operation.run, syncAllMemberRoles]
    rw [exec_tryCatch]
    rcases guild with _ | ⟨e | members⟩
    · rfl
    · rfl
    · simp only [Operation.writes]
      rw [syncLoop_eq_issueAll, (exec_issueAll _ (World.reliable db mc)).2.2 rfl]
      rfl

theorem saveUserRole_writes_spare (c : CounterPath) (now : Int)
    (userId username roleName : String) :
    ∀ w ∈ saveUserRole.writes now userId username roleName, w.spares c := by
  intro w hw
  simp only [saveUserRole.writes, List.mem_cons, List.mem_singleton, List.not_mem_nil,
    or_false] at hw
  rcases hw with rfl | rfl
  · apply spares_update_user
    intro kv hkv
    simp only [List.mem_cons, List.mem_singleton, List.not_mem_nil, or_false] at hkv
    rcases hkv with rfl | rfl | rfl <;> simp
  · exact spares_increment_counter c (.statsRole (replaceFirst ' ' '_' roleName))

theorem syncAllMemberRoles_writes_spare (c : CounterPath) (members : List GuildMember) :
    ∀ w ∈ syncAllMemberRoles.writes members, w.spares c := by
  induction members with
  | nil => simp [syncAllMemberRoles.writes]
  | cons m rest ih =>
    by_cases hb : m.user.bot = true
    · simpa [syncAllMemberRoles.writes, hb] using ih
    · cases hr : getUserMagRole (some m) with
      | none => simpa [syncAllMemberRoles.writes, hb, hr] using ih
      | some role =>
        intro w hw
        simp only [syncAllMemberRoles.writes, hb, hr, List.mem_cons, Bool.false_eq_true,
          if_false] at hw
        rcases hw with rfl | hw
        · apply spares_update_user
          intro kv hkv
          simp only [List.mem_cons, List.mem_singleton, List.not_mem_nil, or_false] at hkv
          rcases hkv with rfl | rfl | rfl <;> simp
        · exact ih w hw

theorem guildMemberAdd_writes_spare (c : CounterPath) (member : GuildMember)
    (hc : c ≠ .userTotalMessages member.user.id) :
    ∀ w ∈ guildMemberAdd.writes member, w.spares c := by
  intro w hw
  simp only [guildMemberAdd.writes, List.mem_cons, List.mem_singleton, List.not_mem_nil,
    or_false] at hw
  rcases hw with rfl | rfl
  · intro kv hkv
    simp only [List.mem_cons, List.mem_singleton, List.not_mem_nil, or_false] at hkv
    have huser := fun (data : List (String × JVal)) h =>
      spares_update_user c member.user.id data h
    rcases hkv with rfl | rfl | rfl | rfl | rfl
    · exact huser [_] (by simp) _ (List.mem_singleton_self _)
    · exact huser [_] (by simp) _ (List.mem_singleton_self _)
    · exact huser [_] (by simp) _ (List.mem_singleton_self _)
    · exact huser [_] (by simp) _ (List.mem_singleton_self _)
    · exact diverge_counter_paths c (.userTotalMessages member.user.id) hc
  · exact spares_increment_counter c .statsTotalMembers

theorem totalMessages_guildMemberAdd (member : GuildMember) (db : JVal) :
    (applyWrites (guildMemberAdd.writes member) db).getPath
      ["discord", "users", member.user.id, "totalMessages"] = .num 0 := by
  simp only [applyWrites, guildMemberAdd.writes, List.foldl_cons, List.foldl_nil]
  rw [getPath_apply_increment_diverge _ _ _ _ (by simp [diverge])]
  simp [Write.apply, JVal.updatePath, JVal.getPath_setPath_same]

/-- C6, as stated, fails: when a member who already has 5 tracked messages
joins again, `guildMemberAdd` writes `totalMessages: 0` and the counter
`users/42/totalMessages` drops from 5 to 0. -/
theorem counters_non_decreasing_counterexample :
    ¬ (∀ (op : Operation) (db : JVal) (mc : Nat) (c : CounterPath) (v : Int),
        counterAt db c = some v →
        ∃ v', counterAt (op.run.exec (World.reliable db mc)).2.db c = some v' ∧ v ≤ v') := by
  intro h
  obtain ⟨v', hv', hle⟩ := h (.recordJoin ⟨⟨"42", "ann", false⟩, "Ann", some [], none⟩)
    (.obj [("discord", .obj [("users", .obj [("42", .obj [("totalMessages", .num 5)])])])])
    0 (.userTotalMessages "42") 5 rfl
  have h0 : counterAt ((Operation.recordJoin
      ⟨⟨"42", "ann", false⟩, "Ann", some [], none⟩).run.exec (World.reliable
        (.obj [("discord", .obj [("users", .obj [("42", .obj [("totalMessages", .num 5)])])])])
        0)).2.db (.userTotalMessages "42") = some 0 := by rfl
  rw [h0] at hv'
  have : v' = 0 := by simpa using hv'.symm
  omega

/-- C6, amended: run alone on a store and with no store failure, each of
`saveUserMessage`, `saveUserRole`, `guildMemberAdd` and `syncAllMemberRoles`
completes and leaves every counter that held a value with a value that is not
smaller, except that `guildMemberAdd` sets the joining member's own
`users/<id>/totalMessages` to 0. -/
theorem counters_non_decreasing (op : Operation) (db : JVal) (mc : Nat) :
    (op.run.exec (World.reliable db mc)).1 = .ok () ∧
    (∀ (c : CounterPath) (v : Int), counterAt db c = some v →
      (∀ member, op = .recordJoin member → c ≠ .userTotalMessages member.user.id) →
      ∃ v', counterAt (op.run.exec (World.reliable db mc)).2.db c = some v' ∧ v ≤ v') ∧
    (∀ member, op = .recordJoin member →
      counterAt (op.run.exec (World.reliable db mc)).2.db
        (.userTotalMessages member.user.id) = some 0) := by
  rw [exec_operation_reliable]
  refine ⟨rfl, ?_, ?_⟩
  · intro c v hv hjoin
    apply counterAt_applyWrites c op.writes db v _ hv
    cases op with
    | recordMessage now today userId username displayName channelId channelName isArt =>
      exact saveUserMessage_writes_spare c _ _ _ _ _ _ _ _
    | recordRole now userId username roleName =>
      exact saveUserRole_writes_spare c _ _ _ _
    | recordJoin member =>
      exact guildMemberAdd_writes_spare c member (hjoin member rfl)
    | syncAllMemberRoles guild =>
      rcases guild with _ | ⟨e | members⟩
      · simp [Operation.writes]
      · simp [Operation.writes]
      · exact syncAllMemberRoles_writes_spare c members
  · intro member hop
    subst hop
    simp only [World.reliable, Operation.writes, counterAt, CounterPath.path]
    rw [totalMessages_guildMemberAdd]
    rfl

/-- C6, amended, at a concrete input: a message of user 42 in channel 7 with
`users/42/totalMessages` at 5. -/
theorem counters_non_decreasing_witness :
    ∃ v', counterAt ((Operation.recordMessage 1000 "2024-05-01" "42" "ann" "Ann" "7" "general"
        false).run.exec (World.reliable
          (.obj [("discord", .obj [("users", .obj [("42", .obj [("totalMessages", .num 5)])])])])
          0)).2.db (.userTotalMessages "42") = some v' ∧ (5 : Int) ≤ v' :=
  (counters_non_decreasing
      (.recordMessage 1000 "2024-05-01" "42" "ann" "Ann" "7" "general" false)
      (.obj [("discord", .obj [("users", .obj [("42", .obj [("totalMessages", .num 5)])])])])
      0).2.1 (.userTotalMessages "42") 5 rfl (fun member h => by cases h)

/-! ## When the role is recorded -/

theorem exec_saveUserRole_reliable (now : Int) (userId username roleName : String)
    (db : JVal) (mc : Nat) :
    (saveUserRole now userId username roleName).exec (World.reliable db mc) =
      (.ok (), World.reliable
        (applyWrites (saveUserRole.writes now userId username roleName) db) mc) :=
  exec_operation_reliable (.recordRole now userId username roleName) db mc

theorem exec_modify (f : World → World) (w : World) :
    (modify f : Remote Unit).exec w = (.ok (), f w) := rfl

theorem exec_messageCreate_role (now : Int) (today : String) (roleNow : Int)
    (message : Message) (db : JVal) (mc : Nat) (role : String)
    (hbot : message.author.bot = false) (hguild : message.guild = true)
    (hrole : getUserMagRole message.member = some role) :
    (messageCreate now today roleNow message).exec (World.reliable db mc) =
      (.ok (), World.reliable
        (applyWrites
          (saveUserRole.writes roleNow message.author.id message.author.username role)
          (applyWrites (saveUserMessage.writes now today message.author.id
            message.author.username (messageCreate.displayName message) message.channelId
            message.channelName (isArtSubmission message)) db))
        (mc + 1)) := by
  simp only [messageCreate, hbot, hguild, hrole, Bool.false_eq_true, if_false, Bool.not_true,
    exec_bind, exec_saveUserMessage_reliable, exec_saveUserRole_reliable, exec_modify]
  simp only [World.reliable]

theorem exec_messageCreate_no_role (now : Int) (today : String) (roleNow : Int)
    (message : Message) (db : JVal) (mc : Nat)
    (hbot : message.author.bot = false) (hguild : message.guild = true)
    (hrole : getUserMagRole message.member = none) :
    (messageCreate now today roleNow message).exec (World.reliable db mc) =
      (.ok (), World.reliable
        (applyWrites (saveUserMessage.writes now today message.author.id
          message.author.username (messageCreate.displayName message) message.channelId
          message.channelName (isArtSubmission message)) db)
        (mc + 1)) := by
  simp only [messageCreate, hbot, hguild, hrole, Bool.false_eq_true, if_false, Bool.not_true,
    exec_bind, exec_saveUserMessage_reliable, exec_pure, exec_modify]
  simp only [World.reliable]

theorem magRole_saveUserRole (now : Int) (userId username roleName : String) (db : JVal) :
    (applyWrites (saveUserRole.writes now userId username roleName) db).getPath
        ["discord", "users", userId, "magRole"] = .str roleName ∧
    (applyWrites (saveUserRole.writes now userId username roleName) db).getPath
        ["discord", "users", userId, "roleUpdated"] = .num now := by
  simp only [applyWrites, saveUserRole.writes, List.foldl_cons, List.foldl_nil]
  rw [getPath_apply_increment_diverge _ _ _ _ (by simp [diverge]),
    getPath_apply_increment_diverge _ _ _ _ (by simp [diverge])]
  constructor
  · simp only [Write.apply, JVal.updatePath, List.foldl_cons, List.foldl_nil, List.cons_append,
      List.nil_append]
    rw [JVal.getPath_setPath_diverge _ _ _ _ (by simp [diverge]), JVal.getPath_setPath_same]
  · simp only [Write.apply, JVal.updatePath, List.foldl_cons, List.foldl_nil, List.cons_append,
      List.nil_append]
    rw [JVal.getPath_setPath_same]

theorem roleCounter_saveUserRole (now : Int) (userId username roleName : String) (db : JVal)
    (v : Int)
    (h : (db.getPath ["discord", "stats", "roles", replaceFirst ' ' '_' roleName]).count =
      some v) :
    (applyWrites (saveUserRole.writes now userId username roleName) db).getPath
        ["discord", "stats", "roles", replaceFirst ' ' '_' roleName] = .num (v + 1) := by
  simp only [applyWrites, saveUserRole.writes, List.foldl_cons, List.foldl_nil]
  rw [getPath_apply_increment_same,
    getPath_apply_update_diverge _ _ _ _ (by simp [diverge]),
    JVal.or_addNum_of_count _ _ _ h]

theorem otherRoleCounter_saveUserRole (now : Int) (userId username roleName slug : String)
    (db : JVal) (h : slug ≠ replaceFirst ' ' '_' roleName) :
    (applyWrites (saveUserRole.writes now userId username roleName) db).getPath
        ["discord", "stats", "roles", slug] = db.getPath ["discord", "stats", "roles", slug] := by
  simp only [applyWrites, saveUserRole.writes, List.foldl_cons, List.foldl_nil]
  rw [getPath_apply_increment_diverge _ _ _ _ (by simp [diverge, h]),
    getPath_apply_update_diverge _ _ _ _ (by simp [diverge])]

theorem roleData_saveUserMessage (now : Int) (today : String)
    (userId username displayName channelId channelName : String) (isArt : Bool)
    (db : JVal) :
    (∀ slug, (applyWrites (saveUserMessage.writes now today userId username displayName
        channelId channelName isArt) db).getPath ["discord", "stats", "roles", slug] =
      db.getPath ["discord", "stats", "roles", slug]) ∧
    (applyWrites (saveUserMessage.writes now today userId username displayName
        channelId channelName isArt) db).getPath ["discord", "users", userId, "magRole"] =
      db.getPath ["discord", "users", userId, "magRole"] ∧
    (applyWrites (saveUserMessage.writes now today userId username displayName
        channelId channelName isArt) db).getPath ["discord", "users", userId, "roleUpdated"] =
      db.getPath ["discord", "users", userId, "roleUpdated"] := by
  refine ⟨?_, ?_, ?_⟩ <;> try intro slug
  all_goals
    cases isArt <;>
      simp [applyWrites, saveUserMessage.writes, getPath_apply_increment_diverge,
        getPath_apply_update_diverge, diverge]

theorem messageCreate_role_effect (now : Int) (today : String) (roleNow : Int)
    (message : Message) (db : JVal) (mc : Nat) (role : String)
    (hbot : message.author.bot = false) (hguild : message.guild = true)
    (hrole : getUserMagRole message.member = some role) :
    ((messageCreate now today roleNow message).exec (World.reliable db mc)).2.db.getPath
        ["discord", "users", message.author.id, "magRole"] = .str role ∧
    ((messageCreate now today roleNow message).exec (World.reliable db mc)).2.db.getPath
        ["discord", "users", message.author.id, "roleUpdated"] = .num roleNow ∧
    ∀ v : Int,
      (db.getPath ["discord", "stats", "roles", replaceFirst ' ' '_' role]).count = some v →
      ((messageCreate now today roleNow message).exec (World.reliable db mc)).2.db.getPath
        ["discord", "stats", "roles", replaceFirst ' ' '_' role] = .num (v + 1) := by
  rw [exec_messageCreate_role now today roleNow message db mc role hbot hguild hrole]
  simp only [World.reliable]
  obtain ⟨h1, h2⟩ := magRole_saveUserRole roleNow message.author.id message.author.username
    role (applyWrites (saveUserMessage.writes now today message.author.id
      message.author.username (messageCreate.displayName message) message.channelId
      message.channelName (isArtSubmission message)) db)
  refine ⟨h1, h2, ?_⟩
  intro v hv
  apply roleCounter_saveUserRole
  rw [(roleData_saveUserMessage _ _ _ _ _ _ _ _ db).1]
  exact hv

theorem messageCreate_no_role_effect (now : Int) (today : String) (roleNow : Int)
    (message : Message) (db : JVal) (mc : Nat)
    (hbot : message.author.bot = false) (hguild : message.guild = true)
    (hrole : getUserMagRole message.member = none) :
    (∀ slug, ((messageCreate now today roleNow message).exec
        (World.reliable db mc)).2.db.getPath ["discord", "stats", "roles", slug] =
      db.getPath ["discord", "stats", "roles", slug]) ∧
    ((messageCreate now today roleNow message).exec (World.reliable db mc)).2.db.getPath
        ["discord", "users", message.author.id, "magRole"] =
      db.getPath ["discord", "users", message.author.id, "magRole"] ∧
    ((messageCreate now today roleNow message).exec (World.reliable db mc)).2.db.getPath
        ["discord", "users", message.author.id, "roleUpdated"] =
      db.getPath ["discord", "users", message.author.id, "roleUpdated"] := by
  rw [exec_messageCreate_no_role now today roleNow message db mc hbot hguild hrole]
  simp only [World.reliable]
  exact roleData_saveUserMessage _ _ _ _ _ _ _ _ db

theorem messageCreate_ignored (now : Int) (today : String) (roleNow : Int)
    (message : Message) (w : World)
    (h : message.author.bot = true ∨ message.guild = false) :
    (messageCreate now today roleNow message).exec w = (.ok (), w) := by
  unfold messageCreate
  rcases h with h | h
  · rw [if_pos h, exec_pure]
  · by_cases hb : message.author.bot = true
    · rw [if_pos hb, exec_pure]
    · rw [if_neg hb, if_pos (by simp [h]), exec_pure]

theorem guildMemberUpdate_unchanged (roleNow : Int) (oldMember newMember : GuildMember)
    (w : World)
    (h : getUserMagRole (some oldMember) = getUserMagRole (some newMember) ∨
      getUserMagRole (some newMember) = none) :
    (guildMemberUpdate roleNow oldMember newMember).exec w = (.ok (), w) := by
  unfold guildMemberUpdate
  by_cases hne : getUserMagRole (some oldMember) = getUserMagRole (some newMember)
  · simp only [hne, ne_eq, not_true_eq_false, if_false, exec_pure]
  · rcases h with h | h
    · exact absurd h hne
    · simp only [h]
      split <;> rfl

theorem guildMemberUpdate_changed (roleNow : Int) (oldMember newMember : GuildMember)
    (w : World) (role : String)
    (hne : getUserMagRole (some oldMember) ≠ getUserMagRole (some newMember))
    (hrole : getUserMagRole (some newMember) = some role) :
    (guildMemberUpdate roleNow oldMember newMember).exec w =
      (saveUserRole roleNow newMember.user.id newMember.user.username role).exec w := by
  unfold guildMemberUpdate
  rw [hrole] at hne
  simp only [hrole]
  rw [if_pos hne]

/-- C7, as stated, fails: the `messageCreate` handler calls `saveUserRole`
for a message whose author holds the role "Mag 2", so the counter
`stats/roles/Mag_2`, absent before the message, is 1 after it. -/
theorem messageCreate_leaves_roles_counterexample :
    ¬ (∀ (now : Int) (today : String) (roleNow : Int) (message : Message) (db : JVal)
        (mc : Nat) (slug : String),
        ((messageCreate now today roleNow message).exec (World.reliable db mc)).2.db.getPath
            ["discord", "stats", "roles", slug] =
          db.getPath ["discord", "stats", "roles", slug]) := by
  intro h
  have h1 := h 1000 "2024-05-01" 1001
    ⟨⟨"42", "ann", false⟩, true, some ⟨⟨"42", "ann", false⟩, "Ann", some ["Mag 2"], none⟩,
      "7", "general", 0⟩ .null 0 "Mag_2"
  have h2 : ((messageCreate 1000 "2024-05-01" 1001
      ⟨⟨"42", "ann", false⟩, true, some ⟨⟨"42", "ann", false⟩, "Ann", some ["Mag 2"], none⟩,
        "7", "general", 0⟩).exec (World.reliable .null 0)).2.db.getPath
      ["discord", "stats", "roles", "Mag_2"] = .num 1 := by rfl
  rw [h2] at h1
  cases h1

/-- C7, amended: the `messageCreate` handler calls `saveUserRole` once for
every message it tracks whose author has a resolved magnitude role (the stored
`magRole` becomes that role and its `stats/roles/<slug>` counter rises by 1)
and not at all for an author without one or for a message it ignores (the role
counters, `magRole` and `roleUpdated` stay as they were); the
`guildMemberUpdate` handler calls it exactly when the resolved roles before
and after differ and the new one is not `null`. -/
theorem saveUserRole_call_sites :
    (∀ (now : Int) (today : String) (roleNow : Int) (message : Message) (db : JVal) (mc : Nat)
        (role : String),
      message.author.bot = false → message.guild = true →
      getUserMagRole message.member = some role →
        ((messageCreate now today roleNow message).exec (World.reliable db mc)).2.db.getPath
            ["discord", "users", message.author.id, "magRole"] = .str role ∧
        ((messageCreate now today roleNow message).exec (World.reliable db mc)).2.db.getPath
            ["discord", "users", message.author.id, "roleUpdated"] = .num roleNow ∧
        ∀ v : Int,
          (db.getPath ["discord", "stats", "roles", replaceFirst ' ' '_' role]).count = some v →
          ((messageCreate now today roleNow message).exec (World.reliable db mc)).2.db.getPath
            ["discord", "stats", "roles", replaceFirst ' ' '_' role] = .num (v + 1)) ∧
    (∀ (now : Int) (today : String) (roleNow : Int) (message : Message) (db : JVal) (mc : Nat),
      message.author.bot = false → message.guild = true →
      getUserMagRole message.member = none →
        (∀ slug, ((messageCreate now today roleNow message).exec
            (World.reliable db mc)).2.db.getPath ["discord", "stats", "roles", slug] =
          db.getPath ["discord", "stats", "roles", slug]) ∧
        ((messageCreate now today roleNow message).exec (World.reliable db mc)).2.db.getPath
            ["discord", "users", message.author.id, "magRole"] =
          db.getPath ["discord", "users", message.author.id, "magRole"] ∧
        ((messageCreate now today roleNow message).exec (World.reliable db mc)).2.db.getPath
            ["discord", "users", message.author.id, "roleUpdated"] =
          db.getPath ["discord", "users", message.author.id, "roleUpdated"]) ∧
    (∀ (now : Int) (today : String) (roleNow : Int) (message : Message) (w : World),
      message.author.bot = true ∨ message.guild = false →
        (messageCreate now today roleNow message).exec w = (.ok (), w)) ∧
    (∀ (roleNow : Int) (oldMember newMember : GuildMember) (w : World),
      getUserMagRole (some oldMember) = getUserMagRole (some newMember) ∨
        getUserMagRole (some newMember) = none →
        (guildMemberUpdate roleNow oldMember newMember).exec w = (.ok (), w)) ∧
    (∀ (roleNow : Int) (oldMember newMember : GuildMember) (w : World) (role : String),
      getUserMagRole (some oldMember) ≠ getUserMagRole (some newMember) →
      getUserMagRole (some newMember) = some role →
        (guildMemberUpdate roleNow oldMember newMember).exec w =
          (saveUserRole roleNow newMember.user.id newMember.user.username role).exec w) := by
  exact ⟨messageCreate_role_effect, messageCreate_no_role_effect, messageCreate_ignored,
    guildMemberUpdate_unchanged, guildMemberUpdate_changed⟩

/-- C7, amended, at a concrete input: a message of a member holding the role
"Mag 2", on an empty store. -/
theorem saveUserRole_call_sites_witness :
    ((messageCreate 1000 "2024-05-01" 1001
      ⟨⟨"42", "ann", false⟩, true, some ⟨⟨"42", "ann", false⟩, "Ann", some ["Mag 2"], none⟩,
        "7", "general", 0⟩).exec (World.reliable .null 0)).2.db.getPath
      ["discord", "users", "42", "magRole"] = .str "Mag 2" :=
  (saveUserRole_call_sites.1 1000 "2024-05-01" 1001
    ⟨⟨"42", "ann", false⟩, true, some ⟨⟨"42", "ann", false⟩, "Ann", some ["Mag 2"], none⟩,
      "7", "general", 0⟩ .null 0 "Mag 2" rfl rfl rfl).1

/-! ## Recording a role twice -/

theorem slug_injective_on_config (r1 r2 : String) (h1 : r1 ∈ CONFIG.MAG_ROLES)
    (h2 : r2 ∈ CONFIG.MAG_ROLES) (hne : r1 ≠ r2) :
    replaceFirst ' ' '_' r1 ≠ replaceFirst ' ' '_' r2 := by
  simp only [CONFIG.MAG_ROLES, List.mem_cons, List.mem_singleton, List.not_mem_nil,
    or_false] at h1 h2
  rcases h1 with rfl | rfl | rfl | rfl | rfl <;>
    rcases h2 with rfl | rfl | rfl | rfl | rfl <;>
      first
        | exact absurd rfl hne
        | decide

/-- C8: two successive `saveUserRole` calls for one user with configured
roles `r1` and then `r2`, all store calls succeeding, leave the stored
`magRole` equal to `r2`; when the roles differ, `stats/roles/<slug(r1)>` and
`stats/roles/<slug(r2)>` are each exactly 1 greater than before, the slug
being the role name with its first space replaced by an underscore (for
example "Mag_2" for "Mag 2"). -/
theorem saveUserRole_twice (now1 now2 : Int) (userId username r1 r2 : String)
    (db : JVal) (mc : Nat) (h1 : r1 ∈ CONFIG.MAG_ROLES) (h2 : r2 ∈ CONFIG.MAG_ROLES) :
    ((saveUserRole now1 userId username r1 >>= fun _ =>
        saveUserRole now2 userId username r2).exec (World.reliable db mc)).1 = .ok () ∧
    ((saveUserRole now1 userId username r1 >>= fun _ =>
        saveUserRole now2 userId username r2).exec (World.reliable db mc)).2.db.getPath
      ["discord", "users", userId, "magRole"] = .str r2 ∧
    (r1 ≠ r2 →
      (∀ v : Int,
        (db.getPath ["discord", "stats", "roles", replaceFirst ' ' '_' r1]).count = some v →
        ((saveUserRole now1 userId username r1 >>= fun _ =>
            saveUserRole now2 userId username r2).exec (World.reliable db mc)).2.db.getPath
          ["discord", "stats", "roles", replaceFirst ' ' '_' r1] = .num (v + 1)) ∧
      (∀ v : Int,
        (db.getPath ["discord", "stats", "roles", replaceFirst ' ' '_' r2]).count = some v →
        ((saveUserRole now1 userId username r1 >>= fun _ =>
            saveUserRole now2 userId username r2).exec (World.reliable db mc)).2.db.getPath
          ["discord", "stats", "roles", replaceFirst ' ' '_' r2] = .num (v + 1))) ∧
    replaceFirst ' ' '_' "Mag 2" = "Mag_2" ∧ replaceFirst ' ' '_' "Mag 4" = "Mag_4" := by
  rw [exec_bind, exec_saveUserRole_reliable]
  simp only [exec_saveUserRole_reliable]
  simp only [World.reliable]
  refine ⟨trivial, (magRole_saveUserRole _ _ _ _ _).1, ?_, by decide, by decide⟩
  intro hne
  have hslug := slug_injective_on_config r1 r2 h1 h2 hne
  refine ⟨?_, ?_⟩
  · intro v hv
    rw [otherRoleCounter_saveUserRole _ _ _ _ _ _ hslug]
    exact roleCounter_saveUserRole _ _ _ _ _ _ hv
  · intro v hv
    apply roleCounter_saveUserRole
    rw [otherRoleCounter_saveUserRole _ _ _ _ _ _ (Ne.symm hslug)]
    exact hv

/-- C8 at a concrete input: "Mag 2" and then "Mag 4" for user 42 on an empty
store. -/
theorem saveUserRole_twice_witness :
    ((saveUserRole 1000 "42" "ann" "Mag 2" >>= fun _ =>
        saveUserRole 2000 "42" "ann" "Mag 4").exec (World.reliable .null 0)).2.db.getPath
      ["discord", "users", "42", "magRole"] = .str "Mag 4" ∧
    ((saveUserRole 1000 "42" "ann" "Mag 2" >>= fun _ =>
        saveUserRole 2000 "42" "ann" "Mag 4").exec (World.reliable .null 0)).2.db.getPath
      ["discord", "stats", "roles", replaceFirst ' ' '_' "Mag 2"] = .num (0 + 1) :=
  ⟨(saveUserRole_twice 1000 2000 "42" "ann" "Mag 2" "Mag 4" .null 0
      (by decide) (by decide)).2.1,
   ((saveUserRole_twice 1000 2000 "42" "ann" "Mag 2" "Mag 4" .null 0
      (by decide) (by decide)).2.2.1 (by decide)).1 0 rfl⟩

/-! ## The role distribution -/

theorem exec_getServerStats (w : World) :
    getServerStats.exec w =
      match request.exec w with
      | (.error _, w') => (.ok getServerStats.default, w')
      | (.ok _, w') => (.ok ((w'.db.getPath ["discord", "stats"]).or getServerStats.default), w') := by
  unfold getServerStats
  rw [exec_tryCatch, exec_bind, exec_get]
  rcases request.exec w with ⟨r, w'⟩
  cases r <;> rfl

theorem roles_lookup (stats : JVal) (slug : String) :
    (((((stats.or getServerStats.default).prop "roles").getD .null).or (.obj [])).prop
      slug).getD .null = stats.getPath ["roles", slug] := by
  by_cases ht : stats.truthy = true
  · simp only [JVal.or, ht, if_true, prop_getD_eq_lookup, JVal.getPath]
    by_cases hr : (JVal.lookup "roles" stats.fields).truthy = true
    · simp only [hr, if_true]
    · simp only [hr, Bool.false_eq_true, if_false]
      cases hl : JVal.lookup "roles" stats.fields with
      | obj fs => rw [hl] at hr; simp [JVal.truthy] at hr
      | null => rfl
      | bool b => rfl
      | num n => rfl
      | str t => rfl
  · simp only [JVal.or, ht, Bool.false_eq_true, if_false, JVal.getPath]
    cases stats with
    | obj fs => simp [JVal.truthy] at ht
    | null => rfl
    | bool b => rfl
    | num n => rfl
    | str t => rfl

theorem exec_handleRoles (w : World) :
    handleRoles.exec w =
      match request.exec w with
      | (.error _, w') =>
        (match mapThrowing (fun role => handleRoles.line role (.num 0)) CONFIG.MAG_ROLES with
          | none => .error "RangeError"
          | some lines => .ok lines, w')
      | (.ok _, w') =>
        (match mapThrowing (fun role => handleRoles.line role
            ((w'.db.getPath ["discord", "stats", "roles", replaceFirst ' ' '_' role]).or
              (.num 0))) CONFIG.MAG_ROLES with
          | none => .error "RangeError"
          | some lines => .ok lines, w') := by
  unfold handleRoles
  rw [exec_bind, exec_getServerStats]
  rcases request.exec w with ⟨r, w'⟩
  cases r with
  | error e =>
    have hfun : (fun role => handleRoles.line role
        ((((((getServerStats.default.prop "roles").getD JVal.null).or (JVal.obj [])).prop
          (replaceFirst ' ' '_' role)).getD JVal.null).or (JVal.num 0))) =
        fun role => handleRoles.line role (.num 0) := by
      funext role
      rfl
    simp only [hfun]
    cases hm : mapThrowing (fun role => handleRoles.line role (.num 0)) CONFIG.MAG_ROLES with
    | none => simp only [exec_throw]
    | some lines => simp only [exec_pure]
  | ok u =>
    have h : ∀ slug, (w'.db.getPath ["discord", "stats"]).getPath ["roles", slug] =
        w'.db.getPath ["discord", "stats", "roles", slug] := by
      intro slug
      exact (JVal.getPath_append w'.db ["discord", "stats"] ["roles", slug]).symm
    simp only [roles_lookup, h]
    cases hm : mapThrowing (fun role => handleRoles.line role
        ((w'.db.getPath ["discord", "stats", "roles", replaceFirst ' ' '_' role]).or
          (.num 0))) CONFIG.MAG_ROLES with
    | none => simp only [exec_throw]
    | some lines => simp only [exec_pure]

theorem mapThrowing_eq_map {α β : Type} (f : α → Option β) (g : α → β) (l : List α)
    (h : ∀ x ∈ l, f x = some (g x)) : mapThrowing f l = some (l.map g) := by
  induction l with
  | nil => rfl
  | cons x xs ih =>
    have hx := h x (List.mem_cons_self _ _)
    have hxs := ih (fun y hy => h y (List.mem_cons_of_mem _ hy))
    simp only [mapThrowing, hx, hxs, List.map_cons]

/-- The line that `handleRoles` draws for a role whose count is `v`. -/
theorem line_of_nonneg (role : String) (stored : JVal) (v : Int)
    (h : stored.count = some v) (hv : 0 ≤ v) :
    handleRoles.line role (stored.or (.num 0)) =
      some { role := role, count := .num v,
             bar := String.join (List.replicate (min v 20).toNat "█") ++
               String.join (List.replicate (max 0 (20 - v)).toNat "░") } := by
  have h1 : ¬ (min v 20 < 0) := by omega
  have h2 : ¬ (max 0 (20 - v) < 0) := by omega
  rw [or_zero_of_count stored v h]
  simp only [handleRoles.line, JVal.toNumber, repeatString, h1, h2, if_false]

theorem exec_handleRoles_failed (w : World) (h : w.faults.head? = some true) :
    (handleRoles.exec w).1 =
      .ok (CONFIG.MAG_ROLES.map (fun role =>
        ({ role := role, count := .num 0,
           bar := String.join (List.replicate 0 "█") ++
             String.join (List.replicate 20 "░") } : RoleLine))) := by
  rw [exec_handleRoles, exec_request_failed w h]
  rfl

theorem exec_handleRoles_nonneg (w : World) (hhead : w.faults.head? ≠ some true)
    (h : ∀ role ∈ CONFIG.MAG_ROLES, ∃ v : Int,
      (w.db.getPath ["discord", "stats", "roles", replaceFirst ' ' '_' role]).count = some v ∧
        0 ≤ v) :
    ∃ lines, (handleRoles.exec w).1 = .ok lines ∧
      lines.map (fun l => l.role) = CONFIG.MAG_ROLES ∧
      lines.map (fun l => l.count) = CONFIG.MAG_ROLES.map (fun role =>
        (w.db.getPath ["discord", "stats", "roles", replaceFirst ' ' '_' role]).or (.num 0)) ∧
      ∀ role ∈ CONFIG.MAG_ROLES, ∀ v : Int,
        (w.db.getPath ["discord", "stats", "roles", replaceFirst ' ' '_' role]).count =
          some v →
        ({ role := role, count := .num v,
           bar := String.join (List.replicate (min v 20).toNat "█") ++
             String.join (List.replicate (max 0 (20 - v)).toNat "░") } : RoleLine) ∈
          lines := by
  rw [exec_handleRoles, exec_request_ok w hhead]
  simp only []
  have hline : ∀ role ∈ CONFIG.MAG_ROLES,
      handleRoles.line role
        ((w.db.getPath ["discord", "stats", "roles", replaceFirst ' ' '_' role]).or
          (.num 0)) =
      some { role := role,
             count := (w.db.getPath
               ["discord", "stats", "roles", replaceFirst ' ' '_' role]).or (.num 0),
             bar := String.join (List.replicate (min ((((w.db.getPath
                 ["discord", "stats", "roles", replaceFirst ' ' '_' role]).or
                   (.num 0)).toNumber).getD 0) 20).toNat "█") ++
               String.join (List.replicate (max 0 (20 - (((w.db.getPath
                 ["discord", "stats", "roles", replaceFirst ' ' '_' role]).or
                   (.num 0)).toNumber).getD 0)).toNat "░") } := by
    intro role hrole
    obtain ⟨v, hv, hnn⟩ := h role hrole
    rw [line_of_nonneg role _ v hv hnn, or_zero_of_count _ v hv]
    rfl
  rw [mapThrowing_eq_map _ _ _ hline]
  refine ⟨_, rfl, ?_, ?_, ?_⟩
  · simp [List.map_map, Function.comp_def]
  · simp [List.map_map, Function.comp_def]
  · intro role hrole v hv
    rw [List.mem_map]
    refine ⟨role, hrole, ?_⟩
    rw [or_zero_of_count _ v hv]
    rfl

/-- C9, as stated, fails: with the stored counter `stats/roles/Mag_1` at -3
the callback of `handleRoles` evaluates `'█'.repeat(Math.min(-3, 20))`, which
throws `RangeError`, so no list is built. -/
theorem handleRoles_distribution_counterexample :
    ¬ (∀ w : World, ∃ lines : List RoleLine,
        (handleRoles.exec w).1 = .ok lines ∧
        lines.map (fun l => l.role) = CONFIG.MAG_ROLES) := by
  intro h
  obtain ⟨lines, hl, _⟩ := h (World.reliable
    (.obj [("discord", .obj [("stats", .obj [("roles", .obj [("Mag_1", .num (-3))])])])]) 0)
  have he : (handleRoles.exec (World.reliable
      (.obj [("discord", .obj [("stats", .obj [("roles", .obj [("Mag_1", .num (-3))])])])])
      0)).1 = .error "RangeError" := by rfl
  rw [he] at hl
  cases hl

/-- C9, amended: for every stats record (an absent one included) in which the
counter of each configured role is absent or a number that is not negative,
`handleRoles` builds exactly one line per configured magnitude role, in the
configured order, also when the record cannot be read; when the read succeeds
the count of a role is the node stored at `stats/roles/<slug(role)>`, or 0 when
there is none, and its bar has min(count, 20) filled cells; and the slug is the
one `saveUserRole` writes under: after a `saveUserRole` call for a configured
role the line of that role shows one more. -/
theorem handleRoles_distribution :
    (∀ w : World,
      (∀ role ∈ CONFIG.MAG_ROLES, ∃ v : Int,
        (w.db.getPath ["discord", "stats", "roles", replaceFirst ' ' '_' role]).count =
          some v ∧ 0 ≤ v) →
      ∃ lines : List RoleLine,
        (handleRoles.exec w).1 = .ok lines ∧ lines.map (fun l => l.role) = CONFIG.MAG_ROLES) ∧
    (∀ (db : JVal) (mc : Nat),
      (∀ role ∈ CONFIG.MAG_ROLES, ∃ v : Int,
        (db.getPath ["discord", "stats", "roles", replaceFirst ' ' '_' role]).count =
          some v ∧ 0 ≤ v) →
      ∃ lines : List RoleLine,
        (handleRoles.exec (World.reliable db mc)).1 = .ok lines ∧
        lines.map (fun l => l.role) = CONFIG.MAG_ROLES ∧
        lines.map (fun l => l.count) = CONFIG.MAG_ROLES.map (fun role =>
          (db.getPath ["discord", "stats", "roles", replaceFirst ' ' '_' role]).or (.num 0)) ∧
        ∀ role ∈ CONFIG.MAG_ROLES, ∀ v : Int,
          (db.getPath ["discord", "stats", "roles", replaceFirst ' ' '_' role]).count =
            some v →
          ({ role := role, count := .num v,
             bar := String.join (List.replicate (min v 20).toNat "█") ++
               String.join (List.replicate (max 0 (20 - v)).toNat "░") } : RoleLine) ∈
            lines) ∧
    (∀ (now : Int) (userId username role : String) (db : JVal) (mc : Nat) (v : Int),
      role ∈ CONFIG.MAG_ROLES →
      (∀ r ∈ CONFIG.MAG_ROLES, ∃ c : Int,
        (db.getPath ["discord", "stats", "roles", replaceFirst ' ' '_' r]).count =
          some c ∧ 0 ≤ c) →
      (db.getPath ["discord", "stats", "roles", replaceFirst ' ' '_' role]).count = some v →
      ∃ lines : List RoleLine,
        ((saveUserRole now userId username role >>= fun _ => handleRoles).exec
          (World.reliable db mc)).1 = .ok lines ∧
        lines.map (fun l => l.role) = CONFIG.MAG_ROLES ∧
        ({ role := role, count := .num (v + 1),
           bar := String.join (List.replicate (min (v + 1) 20).toNat "█") ++
             String.join (List.replicate (max 0 (20 - (v + 1))).toNat "░") } : RoleLine) ∈
          lines) := by
  refine ⟨?_, ?_, ?_⟩
  · intro w h
    by_cases hhead : w.faults.head? = some true
    · refine ⟨_, exec_handleRoles_failed w hhead, ?_⟩
      simp [List.map_map, Function.comp_def]
    · obtain ⟨lines, h1, h2, _⟩ := exec_handleRoles_nonneg w hhead h
      exact ⟨lines, h1, h2⟩
  · intro db mc h
    exact exec_handleRoles_nonneg (World.reliable db mc) (by simp [World.reliable]) h
  · intro now userId username role db mc v hrole h hv
    rw [exec_bind, exec_saveUserRole_reliable]
    simp only []
    have hafter : ∀ r ∈ CONFIG.MAG_ROLES, ∃ c : Int,
        ((applyWrites (saveUserRole.writes now userId username role) db).getPath
          ["discord", "stats", "roles", replaceFirst ' ' '_' r]).count = some c ∧ 0 ≤ c := by
      intro r hr
      by_cases hrr : r = role
      · subst hrr
        obtain ⟨c, hc, hnn⟩ := h r hr
        refine ⟨c + 1, ?_, by omega⟩
        rw [roleCounter_saveUserRole now userId username r db c hc]
        rfl
      · obtain ⟨c, hc, hnn⟩ := h r hr
        refine ⟨c, ?_, hnn⟩
        rw [otherRoleCounter_saveUserRole now userId username role _ db
          (slug_injective_on_config r role hr hrole hrr)]
        exact hc
    obtain ⟨lines, h1, h2, _, h4⟩ := exec_handleRoles_nonneg
      (World.reliable (applyWrites (saveUserRole.writes now userId username role) db) mc)
      (by simp [World.reliable]) hafter
    refine ⟨lines, h1, h2, ?_⟩
    apply h4 role hrole (v + 1)
    simp only [World.reliable]
    rw [roleCounter_saveUserRole now userId username role db v hv]
    rfl

/-- C9, amended, at a concrete input: a stats record in which only "Mag 3"
has a counter, at 4. -/
theorem handleRoles_distribution_witness :
    ∃ lines : List RoleLine,
      (handleRoles.exec (World.reliable
        (.obj [("discord", .obj [("stats", .obj [("roles", .obj [("Mag_3", .num 4)])])])])
        0)).1 = .ok lines ∧
      lines.map (fun l => l.role) = CONFIG.MAG_ROLES ∧
      lines.map (fun l => l.count) = [.num 0, .num 0, .num 4, .num 0, .num 0] :=
  (handleRoles_distribution.2.1
    (.obj [("discord", .obj [("stats", .obj [("roles", .obj [("Mag_3", .num 4)])])])]) 0
    (by
      intro role hrole
      simp only [CONFIG.MAG_ROLES, List.mem_cons, List.mem_singleton, List.not_mem_nil,
        or_false] at hrole
      rcases hrole with rfl | rfl | rfl | rfl | rfl
      · exact ⟨0, rfl, le_refl _⟩
      · exact ⟨0, rfl, le_refl _⟩
      · exact ⟨4, rfl, by decide⟩
      · exact ⟨0, rfl, le_refl _⟩
      · exact ⟨0, rfl, le_refl _⟩)).imp
    (fun _ h => ⟨h.1, h.2.1, h.2.2.1⟩)

/-! ## Partial failure -/

theorem completedWrites_le (faults : List Bool) (ws : List Write) :
    completedWrites faults ws ≤ ws.length := by
  induction ws generalizing faults with
  | nil => simp [completedWrites]
  | cons w ws ih =>
    simp only [completedWrites, List.length_cons]
    split
    · omega
    · have := ih (faults.drop w.calls)
      omega

/-- C10: `saveUserMessage` never raises: whatever the inputs and whichever
remote calls fail, it completes normally, and the database it leaves is the
initial database with exactly the store calls it completed before the first
failure applied, in program order, nothing being rolled back; for example,
when the fourth remote call fails (the read of the second increment) the user
update and the `totalMessages` increment stay applied and nothing else is. -/
theorem saveUserMessage_never_raises :
    (∀ (now : Int) (today : String)
        (userId username displayName channelId channelName : String) (isArt : Bool)
        (w : World),
      ((saveUserMessage now today userId username displayName channelId channelName
          isArt).exec w).1 = .ok () ∧
      ((saveUserMessage now today userId username displayName channelId channelName
          isArt).exec w).2.db =
        applyWrites
          ((saveUserMessage.writes now today userId username displayName channelId channelName
            isArt).take
            (completedWrites w.faults
              (saveUserMessage.writes now today userId username displayName channelId
                channelName isArt)))
          w.db ∧
      completedWrites w.faults
          (saveUserMessage.writes now today userId username displayName channelId channelName
            isArt) ≤
        (saveUserMessage.writes now today userId username displayName channelId channelName
          isArt).length) ∧
    ((saveUserMessage 1000 "2024-05-01" "42" "ann" "Ann" "7" "general" false).exec
        { db := .null, faults := [false, false, false, true], messageCounter := 0 }).2.db =
      .obj [("discord", .obj [("users", .obj [("42", .obj
        [("username", .str "ann"), ("displayName", .str "Ann"), ("lastActive", .num 1000),
         ("totalMessages", .num 1)])])])] := by
  refine ⟨?_, rfl⟩
  intro now today userId username displayName channelId channelName isArt w
  rw [saveUserMessage_eq_issueAll]
  obtain ⟨h1, h2, _, _⟩ := exec_guarded_issueAll
    (saveUserMessage.writes now today userId username displayName channelId channelName isArt) w
  exact ⟨h1, h2, completedWrites_le _ _⟩

/-! ## The empty store -/

/-- C11: when the users collection is absent `getLeaderboard(limit)` returns
the empty list for every limit, without failing; when the stats record is
absent `getServerStats()` returns the default record
`{totalMessages: 0, totalArt: 0, roles: {}}`, in which every counter of the
global stats record reads 0 and every map has no entry (`totalMembers` and
`daily` are not in the default and read as absent); when the stats record
is present `getServerStats()` returns it as stored. -/
theorem empty_store_views :
    (∀ (w : World) (limit : Int), w.db.getPath ["discord", "users"] = .null →
      ((getLeaderboard limit).exec w).1 = .ok []) ∧
    (∀ w : World, w.db.getPath ["discord", "stats"] = .null →
      (getServerStats.exec w).1 = .ok getServerStats.default) ∧
    getServerStats.default =
      .obj [("totalMessages", .num 0), ("totalArt", .num 0), ("roles", .obj [])] ∧
    ((JVal.lookup "totalMessages" getServerStats.default.fields).count = some 0 ∧
      (JVal.lookup "totalArt" getServerStats.default.fields).count = some 0 ∧
      (JVal.lookup "totalMembers" getServerStats.default.fields).count = some 0 ∧
      (JVal.lookup "daily" getServerStats.default.fields).fields = [] ∧
      (JVal.lookup "roles" getServerStats.default.fields).fields = []) ∧
    (∀ (db : JVal) (mc : Nat) (record : List (String × JVal)),
      db.getPath ["discord", "stats"] = .obj record →
      getServerStats.exec (World.reliable db mc) = (.ok (.obj record), World.reliable db mc)) ∧
    ((getLeaderboard 5).exec (World.reliable .null 0)).1 = .ok [] := by
  refine ⟨?_, ?_, rfl, ⟨rfl, rfl, rfl, rfl, rfl⟩, ?_, rfl⟩
  · intro w limit h
    have hdb := db_request w
    rw [exec_getLeaderboard]
    rcases hr : request.exec w with ⟨r, w'⟩
    rw [hr] at hdb
    simp only at hdb
    cases r with
    | error e => rfl
    | ok u => simp only [hdb, h, JVal.truthy, Bool.false_eq_true, if_false]
  · intro w h
    have hdb := db_request w
    rw [exec_getServerStats]
    rcases hr : request.exec w with ⟨r, w'⟩
    rw [hr] at hdb
    simp only at hdb
    cases r with
    | error e => rfl
    | ok u => simp only [hdb, h, JVal.or, JVal.truthy, Bool.false_eq_true, if_false]
  · intro db mc record h
    rw [exec_getServerStats]
    simp only [exec_request, World.reliable, h, JVal.or, JVal.truthy, if_true]

/-- C11 at a concrete input: a store that holds only a stats record. -/
theorem empty_store_views_witness :
    ((getLeaderboard 5).exec (World.reliable
        (.obj [("discord", .obj [("stats", .obj [("totalMessages", .num 9)])])]) 0)).1 =
      .ok [] ∧
    getServerStats.exec (World.reliable
        (.obj [("discord", .obj [("stats", .obj [("totalMessages", .num 9)])])]) 0) =
      (.ok (.obj [("totalMessages", .num 9)]), World.reliable
        (.obj [("discord", .obj [("stats", .obj [("totalMessages", .num 9)])])]) 0) :=
  ⟨empty_store_views.1 (World.reliable
      (.obj [("discord", .obj [("stats", .obj [("totalMessages", .num 9)])])]) 0) 5 rfl,
   empty_store_views.2.2.2.2.1
      (.obj [("discord", .obj [("stats", .obj [("totalMessages", .num 9)])])]) 0
      [("totalMessages", .num 9)] rfl⟩

/-! ## The lost update -/

theorem exec_increment_reliable (path : List String) (amount : Int) (db : JVal) (mc : Nat) :
    (firebaseREST.increment path amount).exec (World.reliable db mc) =
      (.ok (((db.getPath path).or (.num 0)).addNum amount),
        World.reliable (db.setPath path (((db.getPath path).or (.num 0)).addNum amount)) mc) := by
  simp only [firebaseREST.increment, exec_bind, exec_get, exec_set, exec_request, exec_pure,
    World.reliable]

theorem steps_eq_increment (path : List String) (amount : Int) (db : JVal) (mc : Nat) :
    (firebaseREST.increment path amount).exec (World.reliable db mc) =
      (.ok (((db.getPath path).or (.num 0)).addNum amount),
        World.reliable
          (((IncrementCall.pending path amount).step db).2.step
            ((IncrementCall.pending path amount).step db).1).1 mc) ∧
    (((IncrementCall.pending path amount).step db).2.step
        ((IncrementCall.pending path amount).step db).1).2 =
      .finished (((db.getPath path).or (.num 0)).addNum amount) := by
  rw [exec_increment_reliable]
  exact ⟨rfl, rfl⟩

theorem race_interleaved (db : JVal) (path : List String) (v : Int)
    (h : (db.getPath path).count = some v) :
    Race.run [false, true, false, true] ⟨db, .pending path 1, .pending path 1⟩ =
      ⟨(db.setPath path (.num (v + 1))).setPath path (.num (v + 1)),
        .finished (.num (v + 1)), .finished (.num (v + 1))⟩ := by
  simp only [Race.run, IncrementCall.step, JVal.or_addNum_of_count _ _ _ h]

theorem race_sequential (db : JVal) (path : List String) (v : Int)
    (h : (db.getPath path).count = some v) :
    Race.run [false, false, true, true] ⟨db, .pending path 1, .pending path 1⟩ =
      ⟨(db.setPath path (.num (v + 1))).setPath path (.num (v + 2)),
        .finished (.num (v + 1)), .finished (.num (v + 2))⟩ := by
  have h1 : ((db.setPath path (.num (v + 1))).getPath path).count = some (v + 1) := by
    rw [JVal.getPath_setPath_same]; rfl
  have h2 : v + 1 + 1 = v + 2 := by ring
  simp only [Race.run, IncrementCall.step, JVal.or_addNum_of_count _ _ _ h,
    JVal.or_addNum_of_count _ _ _ h1, h2]

/-- C12: `increment` is a read followed by a write.  With the `get` and the
`set` of a call as separate atomic steps and a counter that holds `v`, the
interleaving of two `increment(path)` calls in which both reads come before
either write leaves `v + 1` in the store, not `v + 2`, and both calls return
`v + 1`: one increment is lost.  When the two calls run one after the other
the store holds `v + 2` and each call returns the value it wrote, `v + 1` and
`v + 2`. -/
theorem increment_lost_update (db : JVal) (path : List String) (v : Int)
    (h : (db.getPath path).count = some v) :
    ((Race.run [false, true, false, true]
          ⟨db, .pending path 1, .pending path 1⟩).db.getPath path = .num (v + 1) ∧
      (Race.run [false, true, false, true]
          ⟨db, .pending path 1, .pending path 1⟩).db.getPath path ≠ .num (v + 2) ∧
      (Race.run [false, true, false, true]
          ⟨db, .pending path 1, .pending path 1⟩).first = .finished (.num (v + 1)) ∧
      (Race.run [false, true, false, true]
          ⟨db, .pending path 1, .pending path 1⟩).second = .finished (.num (v + 1))) ∧
    (∃ schedule : List Bool,
      (Race.run schedule ⟨db, .pending path 1, .pending path 1⟩).db.getPath path =
          .num (v + 1) ∧
      (∃ a, (Race.run schedule ⟨db, .pending path 1, .pending path 1⟩).first = .finished a) ∧
      (∃ b, (Race.run schedule ⟨db, .pending path 1, .pending path 1⟩).second = .finished b)) ∧
    ((Race.run [false, false, true, true]
          ⟨db, .pending path 1, .pending path 1⟩).db.getPath path = .num (v + 2) ∧
      (Race.run [false, false, true, true]
          ⟨db, .pending path 1, .pending path 1⟩).first = .finished (.num (v + 1)) ∧
      (Race.run [false, false, true, true]
          ⟨db, .pending path 1, .pending path 1⟩).second = .finished (.num (v + 2))) ∧
    (∀ mc : Nat,
      ((firebaseREST.increment path 1 >>= fun a =>
          firebaseREST.increment path 1 >>= fun b => pure (a, b)).exec
            (World.reliable db mc)).1 = .ok (JVal.num (v + 1), JVal.num (v + 2)) ∧
      ((firebaseREST.increment path 1 >>= fun a =>
          firebaseREST.increment path 1 >>= fun b => pure (a, b)).exec
            (World.reliable db mc)).2.db.getPath path = .num (v + 2)) := by
  have hne : JVal.num (v + 1) ≠ JVal.num (v + 2) := by
    intro e
    have := JVal.num.inj e
    omega
  have h1 : ((db.setPath path (.num (v + 1))).getPath path).count = some (v + 1) := by
    rw [JVal.getPath_setPath_same]; rfl
  have h2 : v + 1 + 1 = v + 2 := by ring
  refine ⟨?_, ?_, ?_, ?_⟩
  · rw [race_interleaved db path v h]
    simp only [JVal.getPath_setPath_same]
    exact ⟨trivial, hne, trivial, trivial⟩
  · refine ⟨[false, true, false, true], ?_⟩
    rw [race_interleaved db path v h]
    simp only [JVal.getPath_setPath_same]
    exact ⟨trivial, ⟨_, rfl⟩, ⟨_, rfl⟩⟩
  · rw [race_sequential db path v h]
    simp only [JVal.getPath_setPath_same]
    exact ⟨trivial, trivial, trivial⟩
  · intro mc
    rw [exec_bind, exec_increment_reliable]
    simp only [exec_bind, exec_increment_reliable, exec_pure]
    simp only [JVal.or_addNum_of_count _ _ _ h, JVal.or_addNum_of_count _ _ _ h1,
      JVal.or_addNum_of_count (.num (v + 1)) (v + 1) 1 rfl, h2, World.reliable,
      JVal.getPath_setPath_same]
    exact ⟨trivial, trivial⟩

/-- C12 at a concrete input: the counter `discord/stats/totalMessages` at 7. -/
theorem increment_lost_update_witness :
    (Race.run [false, true, false, true]
      ⟨.obj [("discord", .obj [("stats", .obj [("totalMessages", .num 7)])])],
        .pending ["discord", "stats", "totalMessages"] 1,
        .pending ["discord", "stats", "totalMessages"] 1⟩).db.getPath
      ["discord", "stats", "totalMessages"] = .num (7 + 1) :=
  (increment_lost_update
    (.obj [("discord", .obj [("stats", .obj [("totalMessages", .num 7)])])])
    ["discord", "stats", "totalMessages"] 7 rfl).1.1

end Seismic
